import Mathlib

/-!
A verification development for the cleanframe data-cleaning engine.

The embedding models the engine's scalar universe with `Value` (integers
stand for the numeric kinds, strings for text, `null` for None/NaN), a
pandas DataFrame as a list of labelled rows over a fixed column list, and
each cleaning stage of `validate_column` / `validate_dataframe` /
`clean_and_validate` as a function from the source.  Python exceptions are
modelled with `Except`; every `try/except` site of the source is an explicit
handler.  Boolean drop masks are modelled as the list of row labels they
flag.  Pattern matching embeds Python `re.match` semantics (anchored at the
start of the string, a full match is not required) over a regex fragment of
literals, the digit class `\d`, the any-character class and the end anchor.
-/

namespace Cleanframe

/-- A scalar cell value: `null` models None/NaN, `int` the numeric kinds
(the embedding restricts numerics to integers), `str` text. -/
inductive Value where
  | null : Value
  | int (n : Int) : Value
  | str (s : String) : Value
deriving DecidableEq, Repr

def Value.isNull : Value → Bool
  | .null => true
  | _ => false

/-- Python `str(v)` / `Series.astype(str)` rendering of a cell.  A null
becomes the string "nan" (the pandas `astype(str)` behaviour for NaN);
this is why the source's `na=True` in `str.match` never fires. -/
def strOfVal : Value → String
  | .null => "nan"
  | .int n => toString n
  | .str s => s

/-- Display used in report messages (an f-string prints None as "None"). -/
def pyStr : Value → String
  | .null => "nan"
  | .int n => toString n
  | .str s => s

def pyStrOpt : Option Value → String
  | none => "None"
  | some v => pyStr v

/-- Parse a decimal integer with optional sign, the way `pd.to_numeric`
accepts integer literals ("007" parses to 7); anything else fails. -/
def parseDigits : List Char → Option Nat
  | [] => none
  | cs => cs.foldl (fun acc c =>
      match acc with
      | none => none
      | some n => if c.isDigit then some (n * 10 + (c.toNat - 48)) else none)
      (some 0)

def parseIntStr (s : String) : Option Int :=
  match s.data with
  | '-' :: rest => (parseDigits rest).map (fun n => -(n : Int))
  | '+' :: rest => (parseDigits rest).map (fun n => (n : Int))
  | cs => (parseDigits cs).map (fun n => (n : Int))

/-- `pd.to_numeric(values, errors="coerce")`: values that cannot be read as a
number coerce to null instead of raising. -/
def toNumeric : Value → Value
  | .null => .null
  | .int n => .int n
  | .str s =>
    match parseIntStr s with
    | some n => .int n
    | none => .null

/-- Comparison of a cell against a numeric bound, `df[col] < m`.  Null
compares false (NaN semantics); non-numeric cells compare false (the
embedding models scalar comparison as total). -/
def vltBound (v : Value) (m : Int) : Bool :=
  match v with
  | .int n => n < m
  | _ => false

def vgtBound (v : Value) (m : Int) : Bool :=
  match v with
  | .int n => m < n
  | _ => false

/-! ### Regex fragment

Python `re.match` applies a pattern at the start of the string and succeeds
as soon as the pattern is exhausted, whether or not input characters remain.
The fragment covers literal characters, the digit class `\d` (repetitions
are unfolded), the any class `.`, and the end anchor `$`; a leading `^` is
redundant under `re.match` and is not represented. -/

inductive RTok where
  | lit (c : Char) : RTok
  | digit : RTok
  | anyc : RTok
  | endA : RTok
deriving DecidableEq, Repr

/-- `re.match` semantics: does the token list match starting at the head of
`cs`, allowing unmatched input to remain once the tokens are exhausted? -/
def matchToks : List RTok → List Char → Bool
  | [], _ => true
  | .endA :: ts, cs => decide (cs = []) && matchToks ts cs
  | .lit c :: ts, d :: cs => decide (c = d) && matchToks ts cs
  | .digit :: ts, d :: cs => d.isDigit && matchToks ts cs
  | .anyc :: ts, _ :: cs => matchToks ts cs
  | _ :: _, [] => false

/-- `re.fullmatch` semantics over the same fragment: the whole input must be
consumed. -/
def matchWhole : List RTok → List Char → Bool
  | [], [] => true
  | [], _ :: _ => false
  | .endA :: ts, cs => decide (cs = []) && matchWhole ts cs
  | .lit c :: ts, d :: cs => decide (c = d) && matchWhole ts cs
  | .digit :: ts, d :: cs => d.isDigit && matchWhole ts cs
  | .anyc :: ts, _ :: cs => matchWhole ts cs
  | _ :: _, [] => false

/-- The token list contains no end anchor. -/
def noEndAnchor (ts : List RTok) : Bool :=
  ts.all (fun t => t ≠ RTok.endA)

def reMatch (ts : List RTok) (s : String) : Bool :=
  matchToks ts s.data

/-- The outcome of compiling `rule.regex`: a compiled token list, or the
`re.error` that `re` raises on a malformed pattern (carried as its text). -/
inductive PatSpec where
  | compiled (ts : List RTok) : PatSpec
  | malformed (e : String) : PatSpec

/-! ### DataFrame -/

/-- A DataFrame: a fixed column list and labelled rows; each row is its
index label plus one cell per column. -/
structure DataFrame where
  cols : List String
  rows : List (Nat × List Value)
deriving DecidableEq, Repr

/-- Index labels are pairwise distinct (a well-formed pandas index). -/
def DataFrame.WF (df : DataFrame) : Prop :=
  (df.rows.map Prod.fst).Nodup

def colIdxOf (df : DataFrame) (c : String) : Nat :=
  df.cols.findIdx (fun x => x = c)

/-- The labelled cells of column `c`. -/
def colOf (df : DataFrame) (c : String) : List (Nat × Value) :=
  df.rows.map (fun rw => (rw.1, rw.2.getD (colIdxOf df c) Value.null))

/-- `df.loc[mask, c] = …` generalised: rewrite column `c` cell-wise, the new
cell a function of the row label and the old cell. -/
def setColBy (df : DataFrame) (c : String) (f : Nat → Value → Value) : DataFrame :=
  let i := colIdxOf df c
  { df with rows := df.rows.map (fun rw => (rw.1, rw.2.set i (f rw.1 (rw.2.getD i Value.null)))) }

/-- `df[c] = converted`: replace column `c` by a parallel list of values. -/
def setColList (df : DataFrame) (c : String) (vs : List Value) : DataFrame :=
  let i := colIdxOf df c
  { df with rows := (df.rows.zip vs).map (fun p => (p.1.1, p.1.2.set i p.2)) }

/-- `df.reset_index(drop=True)`: relabel rows contiguously from zero. -/
def resetIndex (df : DataFrame) : DataFrame :=
  { df with rows := (df.rows.map Prod.snd).enum }

/-- Labels of rows flagged by a drop mask. -/
abbrev Mask := List Nat

/-- `rows_to_drop |= stage_mask`: union keeping first occurrences. -/
def maskUnion (m m' : Mask) : Mask :=
  m ++ m'.filter (fun ℓ => ℓ ∉ m)

/-- `df_cleaned[~rows_to_drop]`: remove every row whose label the mask
flags. -/
def dropRows (df : DataFrame) (m : Mask) : DataFrame :=
  { df with rows := df.rows.filter (fun rw => rw.1 ∉ m) }

/-- Labels of column `c` whose cell satisfies `p`. -/
def maskOf (df : DataFrame) (c : String) (p : Value → Bool) : Mask :=
  ((colOf df c).filter (fun x => p x.2)).map Prod.fst

/-! ### Collaborator functions

A user-supplied Python callable is modelled with its arity observable,
since the engine calls `rule.custom_validator(value)` with one argument:
a two-argument callable (the signature `ColumnRule` documents) raises
TypeError when called that way.  A `none` result models the callable
itself raising. -/

inductive PyFun where
  | arity1 (g : Value → Option Bool) : PyFun
  | arity2 (g : Value → List Value → Option Bool) : PyFun

/-- Call a Python callable with the single argument the engine passes. -/
def callWithValue : PyFun → Value → Except String Bool
  | .arity1 g, v =>
    match g v with
    | some b => .ok b
    | none => .error "exception raised by custom validator"
  | .arity2 _, _ => .error "TypeError: missing 1 required positional argument"

/-- `rule.resolve_duplicates`: given the labels of one duplicate group,
return the label of the row to keep, or raise. -/
abbrev Resolver := List Nat → Except String Nat

/-- A row-wise expression handed to `df.eval`: its source text (used in
report messages) and its evaluation on one row, `none` modelling an
evaluation fault. -/
structure RowExpr where
  text : String
  fn : List String → List Value → Option Bool

/-- An aggregate expression over the whole table. -/
structure AggExpr where
  text : String
  fn : DataFrame → Option Bool

/-! ### Rule model (schema.py) -/

/-- One cross-validation entry: a Python dict, so the type tag is an open
string and every field may be absent (access to an absent field raises
KeyError). -/
structure CrossCheck where
  ctype : Option String := none
  action : Option String := none
  condition : Option RowExpr := none
  aggCheck : Option AggExpr := none
  ifExpr : Option RowExpr := none
  thenExpr : Option RowExpr := none

/-- `ColumnRule` from schema.py. -/
structure ColumnRule where
  dtype : Option String := none
  allow_null : Bool := true
  drop_if_invalid : Bool := false
  fillna : Option Value := none
  min : Option Int := none
  max : Option Int := none
  allowed_values : Option (List Value) := none
  regex : Option PatSpec := none
  custom_validator : Option PyFun := none
  unique : Bool := false
  resolve_duplicates : Option Resolver := none

/-- `DataFrameRule` from schema.py. -/
structure DataFrameRule where
  min_rows : Option Nat := none
  max_rows : Option Nat := none
  no_duplicates : Bool := false
  unique_keys : Option (List String) := none
  expected_columns : Option (List String) := none
  cross_validations : Option (List CrossCheck) := none

/-- `Schema`: ordered column rules (a dict, so keys are distinct) plus at
most one table rule. -/
structure Schema where
  rules : List (String × ColumnRule) := []
  dataframe_rule : Option DataFrameRule := none

/-! ### Aggregate fill strategies -/

def isIntVal : Value → Bool
  | .int _ => true
  | _ => false

def intsOf (vs : List Value) : List Int :=
  vs.filterMap (fun v => match v with | .int n => some n | _ => none)

def strsOf (vs : List Value) : List String :=
  vs.filterMap (fun v => match v with | .str s => some s | _ => none)

def intSum (l : List Int) : Int := l.foldl (· + ·) 0

/-- `df[col].mean()/median()/min()/max()` over the non-null cells.  Numeric
aggregates on text raise TypeError; `min`/`max` on an all-text column take
the lexicographic extremum.  The mean/median of integers is modelled with
integer division (the embedding's numerics are integers). -/
def aggCompute (op : String) (vs : List Value) : Except String Value :=
  if vs.isEmpty then .ok .null
  else if vs.all isIntVal then
    let l := intsOf vs
    match op with
    | "mean" => .ok (.int (intSum l / (l.length : Int)))
    | "median" =>
      let sorted := l.mergeSort (fun a b => a ≤ b)
      .ok (.int (sorted.getD (sorted.length / 2) 0))
    | "min" => .ok (.int (l.foldl Min.min (l.getD 0 0)))
    | "max" => .ok (.int (l.foldl Max.max (l.getD 0 0)))
    | _ => .error "unknown aggregate"
  else if vs.all (fun v => !isIntVal v && !v.isNull) then
    let l := strsOf vs
    match op with
    | "min" => .ok (.str (l.foldl Min.min (l.getD 0 "")))
    | "max" => .ok (.str (l.foldl Max.max (l.getD 0 "")))
    | _ => .error "TypeError: could not aggregate non-numeric values"
  else .error "TypeError: could not aggregate mixed values"

/-- Non-null cells of a column, in row order. -/
def nonNullCol (df : DataFrame) (c : String) : List Value :=
  ((colOf df c).map Prod.snd).filter (fun v => !v.isNull)

/-! ### Column stages (validators.py / transformers.py / utils.py)

Each stage takes the current table and returns the updated table, the
labels the stage marks for drop, and the report messages it appends. -/

/-- One stage's result: table, drop mask, report delta. -/
abbrev StageOut := DataFrame × Mask × List String

def aggStrategies : List String := ["mean", "median", "min", "max"]

/-- Resolution of the fill value: an aggregate strategy name is computed
from the column's current non-null cells; a failure is reported and the
fill skipped. -/
def resolveFill (df : DataFrame) (c : String) (rule : ColumnRule) :
    Option Value × List String :=
  match rule.fillna with
  | some (.str s0) =>
    if s0.toLower ∈ aggStrategies then
      match aggCompute s0.toLower (nonNullCol df c) with
      | .ok v => (some v, [])
      | .error e => (none, [s!"Failed to compute {s0} for '{c}': {e}"])
    else (rule.fillna, [])
  | _ => (rule.fillna, [])

/-- Null handling from `validate_column`: only when `allow_null` is false
are nulls dropped or filled. -/
def nullStage (df : DataFrame) (c : String) (rule : ColumnRule) : StageOut :=
  let nm := maskOf df c Value.isNull
  let n := nm.length
  if n = 0 then (df, [], [])
  else if rule.allow_null then (df, [], [])
  else if rule.drop_if_invalid then
    (df, nm, [s!"{n} null(s) in '{c}' marked for drop."])
  else
    let (fv, rErr) := resolveFill df c rule
    match fv with
    | some v =>
      let fvs := pyStr v
      let strat := pyStrOpt rule.fillna
      (setColBy df c (fun ℓ v0 => if ℓ ∈ nm then v else v0), [],
        rErr ++ [s!"Filled {n} null(s) in '{c}' with {fvs} (strategy={strat})."])
    | none => (df, [], rErr)

/-- Regex validation from `validate_column`: each cell is stringified
(`astype(str)`, so nulls become the text "nan") and matched with
`str.match` = `re.match` semantics.  A malformed pattern is reported and
the check skipped for this column. -/
def regexStage (df : DataFrame) (c : String) (rule : ColumnRule) : StageOut :=
  match rule.regex with
  | none => (df, [], [])
  | some (.malformed e) =>
    (df, [], [s!"Invalid regex pattern for column '{c}': {e}"])
  | some (.compiled ts) =>
    let bad := maskOf df c (fun v => !reMatch ts (strOfVal v))
    let n := bad.length
    if n = 0 then (df, [], [])
    else if rule.drop_if_invalid then
      (df, bad,
        [s!"{n} value(s) in '{c}' failed regex validation and were marked for drop."])
    else
      let fv := pyStrOpt rule.fillna
      (setColBy df c (fun ℓ v0 => if ℓ ∈ bad then rule.fillna.getD .null else v0), [],
        [s!"Replaced {n} value(s) in '{c}' failing regex with {fv}."])

/-- `astype` for the remaining dtype strings: 'string' keeps nulls, 'str'
stringifies them, anything else raises. -/
def astypeCol (d : String) (vs : List Value) : Except String (List Value) :=
  if d = "string" then
    .ok (vs.map (fun v => if v.isNull then .null else .str (strOfVal v)))
  else if d = "str" then
    .ok (vs.map (fun v => .str (strOfVal v)))
  else .error s!"data type {d} not understood"

/-- Element-wise conversion of a whole column for `rule.dtype`.  'datetime'
is modelled over integer timestamps, so its parser coincides with the
numeric one. -/
def convertColVals (d : String) (vs : List Value) : Except String (List Value) :=
  if d = "datetime" then .ok (vs.map toNumeric)
  else if d = "int" ∨ d = "float" then .ok (vs.map toNumeric)
  else astypeCol d vs

/-- `convert_dtype` from transformers.py: coercion failures become null; a
previously non-null cell that is now null is a new invalid.  An unexpected
conversion failure is reported and the column left unmodified. -/
def convert_dtype (df : DataFrame) (c : String) (rule : ColumnRule) : StageOut :=
  match rule.dtype with
  | none => (df, [], [])
  | some d =>
    let origs := colOf df c
    match convertColVals d (origs.map Prod.snd) with
    | .error e => (df, [], [s!"Failed type conversion for column '{c}': {e}"])
    | .ok conv =>
      let bad := ((origs.zip conv).filter
        (fun p => p.2.isNull && !p.1.2.isNull)).map (fun p => p.1.1)
      let n := bad.length
      let df' := setColList df c conv
      if n = 0 then (df', [], [])
      else if rule.drop_if_invalid then
        (df', bad, [s!"{n} invalid type(s) in '{c}' marked for drop."])
      else
        (df', [], [s!"{n} value(s) in '{c}' coerced to NaN."])

/-- The `min` check of `apply_constraints`. -/
def minStage (df : DataFrame) (c : String) (rule : ColumnRule) : StageOut :=
  match rule.min with
  | none => (df, [], [])
  | some m =>
    let below := maskOf df c (fun v => vltBound v m)
    let n := below.length
    if n = 0 then (df, [], [])
    else if rule.drop_if_invalid then
      (df, below, [s!"{n} value(s) in '{c}' below min marked for drop."])
    else
      (setColBy df c (fun ℓ v => if ℓ ∈ below then .int m else v), [],
        [s!"Replaced {n} value(s) in '{c}' below min with {m}."])

/-- The `max` check of `apply_constraints`. -/
def maxStage (df : DataFrame) (c : String) (rule : ColumnRule) : StageOut :=
  match rule.max with
  | none => (df, [], [])
  | some m =>
    let above := maskOf df c (fun v => vgtBound v m)
    let n := above.length
    if n = 0 then (df, [], [])
    else if rule.drop_if_invalid then
      (df, above, [s!"{n} value(s) in '{c}' above max marked for drop."])
    else
      (setColBy df c (fun ℓ v => if ℓ ∈ above then .int m else v), [],
        [s!"Replaced {n} value(s) in '{c}' above max with {m}."])

/-- The `allowed_values` check of `apply_constraints`, including the closing
categorical cast that turns every cell outside the allowed set into null. -/
def allowedStage (df : DataFrame) (c : String) (rule : ColumnRule) : StageOut :=
  match rule.allowed_values with
  | none => (df, [], [])
  | some av =>
    let nb := maskOf df c (fun v => decide (v ∉ av))
    let n := nb.length
    let (df1, mk, msgs) :=
      if n = 0 then (df, ([] : Mask), ([] : List String))
      else if rule.drop_if_invalid then
        (df, nb, [s!"{n} disallowed value(s) in '{c}' marked for drop."])
      else
        let fv := pyStrOpt rule.fillna
        (setColBy df c (fun ℓ v => if ℓ ∈ nb then rule.fillna.getD .null else v), [],
          [s!"Replaced {n} disallowed value(s) in '{c}' with {fv}."])
    (setColBy df1 c (fun _ v => if v ∈ av then v else .null), mk, msgs)

/-- `apply_constraints` from transformers.py: the three checks run
sequentially against the column's current state. -/
def apply_constraints (df : DataFrame) (c : String) (rule : ColumnRule) : StageOut :=
  let s1 := minStage df c rule
  let s2 := maxStage s1.1 c rule
  let s3 := allowedStage s2.1 c rule
  (s3.1, maskUnion (maskUnion s1.2.1 s2.2.1) s3.2.1, s1.2.2 ++ s2.2.2 ++ s3.2.2)

/-- `apply_custom_validator` from utils.py: the validator is applied to each
cell by `Series.apply`, so it is called with the cell value only; an
exception anywhere in the scan aborts the stage with an error message. -/
def apply_custom_validator (df : DataFrame) (c : String) (rule : ColumnRule) : StageOut :=
  match rule.custom_validator with
  | none => (df, [], [])
  | some f =>
    let cells := colOf df c
    match cells.mapM (fun x => callWithValue f x.2) with
    | .error e => (df, [], [s!"Error applying custom validator to '{c}': {e}"])
    | .ok results =>
      let bad := (((cells.map Prod.fst).zip results).filter (fun x => !x.2)).map Prod.fst
      let n := bad.length
      if n = 0 then (df, [], [])
      else if rule.drop_if_invalid then
        (df, bad,
          [s!"{n} value(s) failed custom validation in '{c}' and were marked for drop."])
      else
        let fv := pyStrOpt rule.fillna
        (setColBy df c (fun ℓ v => if ℓ ∈ bad then rule.fillna.getD .null else v), [],
          [s!"Replaced {n} invalid custom values in '{c}' with {fv}."])

/-! ### Uniqueness stage -/

/-- `drop_duplicates(keep="first")` semantics, keyed by `f`: keep each
element whose key has not been seen yet. -/
def dedupOnGo {α β : Type} [DecidableEq β] (f : α → β) : List β → List α → List α
  | _, [] => []
  | seen, a :: rest =>
    if f a ∈ seen then dedupOnGo f seen rest
    else a :: dedupOnGo f (f a :: seen) rest

def dedupOn {α β : Type} [DecidableEq β] (f : α → β) (l : List α) : List α :=
  dedupOnGo f [] l

/-- First occurrence of each distinct value: the labels
`drop_duplicates(keep="first")` keeps among the duplicate rows. -/
def firstKeeps (dup : List (Nat × Value)) : List Nat :=
  (dedupOn Prod.snd dup).map Prod.fst

/-- Distinct values in first-occurrence order (the duplicate groups). -/
def distinctVals (dup : List (Nat × Value)) : List Value :=
  (dedupOn Prod.snd dup).map Prod.snd

/-- The labels each duplicate group keeps: the user resolver per group when
supplied (it may raise), else the first occurrence. -/
def keepLabelsOf (rule : ColumnRule) (dup : List (Nat × Value)) :
    Except String (List Nat) :=
  match rule.resolve_duplicates with
  | some r =>
    (distinctVals dup).mapM
      (fun v => r ((dup.filter (fun y => y.2 = v)).map Prod.fst))
  | none => .ok (firstKeeps dup)

/-- The `unique` block of `validate_column`: identify all rows in duplicate
groups, report them, resolve which to keep, and mark the rest.  A raising
resolver escapes with the found-message already on the report (it is caught
by `validate_column`'s outer handler). -/
def uniqueStage (df : DataFrame) (c : String) (rule : ColumnRule) :
    Except (List String × String) (Mask × List String) :=
  if !rule.unique then .ok ([], [])
  else
    let cells := colOf df c
    let dup := cells.filter (fun x => 2 ≤ cells.countP (fun y => y.2 = x.2))
    let n := dup.length
    if n = 0 then .ok ([], [])
    else
      let found := [s!"Found {n} duplicate value(s) in column '{c}'."]
      match keepLabelsOf rule dup with
      | .error e => .error (found, e)
      | .ok keeps =>
        let dropL := (dup.map Prod.fst).filter (fun ℓ => ℓ ∉ keeps)
        let k := dropL.length
        .ok (dropL, found ++
          [s!"Marked {k} duplicate row(s) in column '{c}' for removal, keeping only unique entries."])

/-! ### Column orchestrator (validate_column) -/

/-- The body of `validate_column` inside its `try`: the stages in source
order, each mask OR-ed into the accumulator.  The error carries the partial
state the shared report and locals hold when an exception escapes a stage
(here: a raising duplicate resolver). -/
def validateColumnBody (df : DataFrame) (c : String) (rule : ColumnRule) :
    Except (StageOut × String) StageOut :=
  let s1 := nullStage df c rule
  let s2 := regexStage s1.1 c rule
  let s3 := convert_dtype s2.1 c rule
  let s4 := apply_constraints s3.1 c rule
  let s5 := apply_custom_validator s4.1 c rule
  let mAcc := maskUnion (maskUnion (maskUnion (maskUnion s1.2.1 s2.2.1) s3.2.1) s4.2.1) s5.2.1
  let rAcc := s1.2.2 ++ s2.2.2 ++ s3.2.2 ++ s4.2.2 ++ s5.2.2
  match uniqueStage s5.1 c rule with
  | .ok (m6, r6) => .ok (s5.1, maskUnion mAcc m6, rAcc ++ r6)
  | .error (r6, e) => .error ((s5.1, mAcc, rAcc ++ r6), e)

/-- `validate_column`: the body under `try`, the catch-all appending an
error message and returning the work done so far. -/
def validate_column (df : DataFrame) (c : String) (rule : ColumnRule) : StageOut :=
  match validateColumnBody df c rule with
  | .ok st => st
  | .error ((d, m, r), e) =>
    (d, m, r ++ [s!"Unexpected error handling column '{c}': {e}"])

/-! ### Table-level checks (validate_dataframe) -/

/-- Python list repr of a list of strings, as an f-string renders it. -/
def pyList (keys : List String) : String :=
  "[" ++ String.intercalate ", " (keys.map (fun k => "'" ++ k ++ "'")) ++ "]"

/-- Row-count bound warnings (advisory only). -/
def minMaxRowMsgs (df : DataFrame) (dr : DataFrameRule) : List String :=
  let n := df.rows.length
  (match dr.min_rows with
   | some m =>
     if n < m then [s!"DataFrame has only {n} rows; expected at least {m}."] else []
   | none => []) ++
  (match dr.max_rows with
   | some m => if m < n then [s!"DataFrame has {n} rows; exceeds max of {m}."] else []
   | none => [])

/-- Full-row duplicate removal (immediate) under `no_duplicates`. -/
def dedupStage (df : DataFrame) (dr : DataFrameRule) : DataFrame × List String :=
  if dr.no_duplicates then
    let kept := dedupOn Prod.snd df.rows
    let dup := df.rows.length - kept.length
    if 0 < dup then ({ df with rows := kept }, [s!"Removed {dup} duplicate row(s)."])
    else (df, [])
  else (df, [])

/-- The key-column cells of one row. -/
def keyCells (df : DataFrame) (keys : List String) (rw : Nat × List Value) : List Value :=
  keys.map (fun k => rw.2.getD (colIdxOf df k) Value.null)

/-- Unique-key violation detection (warn only); `duplicated(subset=keys)`
raises KeyError when a key column is absent. -/
def uniqueKeysMsgs (df : DataFrame) (dr : DataFrameRule) : Except String (List String) :=
  match dr.unique_keys with
  | none => .ok []
  | some keys =>
    if keys.isEmpty then .ok []
    else if keys.all (fun k => k ∈ df.cols) then
      let dups := df.rows.length - (dedupOn (keyCells df keys) df.rows).length
      if 0 < dups then
        let ks := pyList keys
        .ok [s!"Unique key constraint violated: {dups} duplicate(s) found in {ks}."]
      else .ok []
    else
      .error s!"KeyError: {pyList (keys.filter (fun k => k ∉ df.cols))}"

/-- Expected-vs-actual column diffing (warn only). -/
def expectedColMsgs (df : DataFrame) (dr : DataFrameRule) : List String :=
  match dr.expected_columns with
  | none => []
  | some exp =>
    if exp.isEmpty then []
    else
      let missing := exp.filter (fun k => k ∉ df.cols)
      let extra := df.cols.filter (fun k => k ∉ exp)
      (if missing.isEmpty then [] else [s!"Missing expected columns: {pyList missing}"]) ++
      (if extra.isEmpty then [] else [s!"Unexpected extra columns: {pyList extra}"])

/-- Dict field access (`check["condition"]`): raises KeyError when absent. -/
def getField {α : Type} (x : Option α) (name : String) : Except String α :=
  match x with
  | some a => .ok a
  | none => .error s!"KeyError: {name}"

/-- `df.eval(expr)` for a row-wise expression: the per-row boolean mask, the
whole evaluation raising as soon as any row faults. -/
def evalRowMask (e : RowExpr) (df : DataFrame) : Except String (List Bool) :=
  df.rows.mapM (fun rw =>
    match e.fn df.cols rw.2 with
    | some b => Except.ok b
    | none => Except.error s!"error evaluating {e.text}")

/-- How the error message renders the check dict. -/
def checkRepr (ck : CrossCheck) : String :=
  let t := ck.ctype.getD "None"
  let a := ck.action.getD "warn"
  s!"(type={t}, action={a})"

/-- One cross-validation check, inside its per-check `try`.  Comparison and
conditional checks with `action = drop` remove failing rows immediately;
aggregate checks never remove rows; an unrecognised or absent type does
nothing at all. -/
def crossCheckBody (df : DataFrame) (ck : CrossCheck) :
    Except String (DataFrame × List String) := do
  let action := ck.action.getD "warn"
  if ck.ctype = some "comparison" then
    let cond ← getField ck.condition "condition"
    let mask ← evalRowMask cond df
    let invalid := mask.map (fun b => !b)
    let n := (invalid.filter id).length
    if invalid.any id then
      if action = "drop" then
        pure ({ df with rows := ((df.rows.zip mask).filter (fun p => p.2)).map Prod.fst },
          [s!"Dropped {n} row(s) failing comparison: {cond.text}"])
      else
        pure (df, [s!"Comparison check failed: {cond.text}"])
    else pure (df, [])
  else if ck.ctype = some "aggregate" then
    let ag ← getField ck.aggCheck "check"
    let result ← (match ag.fn df with
      | some b => Except.ok b
      | none => Except.error s!"error evaluating {ag.text}")
    if !result then
      if action = "drop" then
        pure (df, [s!"Aggregate check failed and cannot drop rows: {ag.text}"])
      else pure (df, [s!"Aggregate check failed: {ag.text}"])
    else pure (df, [])
  else if ck.ctype = some "conditional" then
    let ie ← getField ck.ifExpr "if"
    let te ← getField ck.thenExpr "then"
    let ifMask ← evalRowMask ie df
    let thenMask ← evalRowMask te df
    let invalid := ifMask.zipWith (fun a b => a && !b) thenMask
    let n := (invalid.filter id).length
    if invalid.any id then
      if action = "drop" then
        pure ({ df with rows := ((df.rows.zip invalid).filter (fun p => !p.2)).map Prod.fst },
          [s!"Dropped {n} row(s) failing conditional: If ({ie.text}) then ({te.text})"])
      else
        pure (df, [s!"Conditional check failed: If ({ie.text}) then ({te.text})"])
    else pure (df, [])
  else pure (df, [])

/-- One cross-validation check with its per-check catch: a fault is
reported and evaluation continues with the next check, the table
untouched. -/
def crossCheckStep (df : DataFrame) (ck : CrossCheck) : DataFrame × List String :=
  match crossCheckBody df ck with
  | .ok st => st
  | .error e => (df, [s!"Error evaluating cross-validation {checkRepr ck}: {e}"])

/-- The cross-validation loop. -/
def crossFold (df : DataFrame) (cks : List CrossCheck) : DataFrame × List String :=
  cks.foldl (fun st ck =>
    let (d, r) := crossCheckStep st.1 ck
    (d, st.2 ++ r)) (df, [])

/-- The body of `validate_dataframe` inside its outer `try`: structural
checks in source order, then the cross-validations.  The only raise that
reaches the outer handler is the KeyError of a `unique_keys` check naming
an absent column. -/
def validateDataframeBody (df : DataFrame) (dr : DataFrameRule) :
    Except ((DataFrame × List String) × String) (DataFrame × List String) :=
  let r0 := minMaxRowMsgs df dr
  let (df1, r1) := dedupStage df dr
  match uniqueKeysMsgs df1 dr with
  | .error e => .error ((df1, r0 ++ r1), e)
  | .ok r2 =>
    let r3 := expectedColMsgs df1 dr
    let (df2, r4) :=
      match dr.cross_validations with
      | some cks => if cks.isEmpty then (df1, []) else crossFold df1 cks
      | none => (df1, [])
    .ok (df2, r0 ++ r1 ++ r2 ++ r3 ++ r4)

/-- `validate_dataframe`: the body under `try`, the catch-all appending an
error message and returning the table as mutated so far. -/
def validate_dataframe (df : DataFrame) (dr : DataFrameRule) : DataFrame × List String :=
  match validateDataframeBody df dr with
  | .ok st => st
  | .error (st, e) =>
    (st.1, st.2 ++ [s!"Unexpected error in DataFrame validation: {e}"])

/-! ### Orchestrator (core.py clean_and_validate) -/

/-- Step 1 of `clean_and_validate`: the table-level rules, when present. -/
def crossPhase (df : DataFrame) (schema : Schema) : DataFrame × List String :=
  match schema.dataframe_rule with
  | some dr => validate_dataframe df dr
  | none => (df, [])

/-- Step 2, one declared column: skip with a warning when absent, else run
`validate_column` and OR its drop mask into the accumulator. -/
def columnStep (st : DataFrame × Mask × List String) (cr : String × ColumnRule) :
    DataFrame × Mask × List String :=
  let cn := cr.1
  if cn ∈ st.1.cols then
    let (d, m, r) := validate_column st.1 cn cr.2
    (d, maskUnion st.2.1 m, st.2.2 ++ r)
  else (st.1, st.2.1, st.2.2 ++ [s!"Column '{cn}' is missing from DataFrame."])

/-- Step 2 of `clean_and_validate`: every declared column in schema order,
drop masks accumulated by union, no row removed yet. -/
def columnPhase (df : DataFrame) (schema : Schema) : DataFrame × Mask × List String :=
  schema.rules.foldl columnStep (df, [], [])

/-- `clean_and_validate` from core.py: work on a copy, run table-level
rules, run every column accumulating one union drop mask, then remove the
flagged rows in a single final pass and reindex from zero. -/
def clean_and_validate (df : DataFrame) (schema : Schema) : DataFrame × List String :=
  let dfc := df
  let p := crossPhase dfc schema
  let q := columnPhase p.1 schema
  let cnt := q.2.1.length
  if cnt ≠ 0 then
    (resetIndex (dropRows q.1 q.2.1),
      p.2 ++ q.2.2 ++ [s!"Dropping {cnt} row(s) due to validation."])
  else (resetIndex q.1, p.2 ++ q.2.2)

/-! ### The raising model of the same pipeline

`cleanAndValidatePy` types every Python function that can raise in
`Except` and places a handler exactly where the source has a `try`; that
it always returns `ok` is the content of the no-escape claim. -/

/-- Step 1 with raising typed: `validate_dataframe`'s body may raise, its
catch-all is the handler here. -/
def crossPhasePy (df : DataFrame) (schema : Schema) :
    Except String (DataFrame × List String) :=
  match schema.dataframe_rule with
  | some dr =>
    match validateDataframeBody df dr with
    | .ok st => .ok st
    | .error (st, e) =>
      .ok (st.1, st.2 ++ [s!"Unexpected error in DataFrame validation: {e}"])
  | none => .ok (df, [])

/-- One column with raising typed: `validate_column`'s body may raise, its
catch-all is the handler here. -/
def columnStepPy (st : DataFrame × Mask × List String) (cr : String × ColumnRule) :
    Except String (DataFrame × Mask × List String) :=
  let cn := cr.1
  if cn ∈ st.1.cols then
    match validateColumnBody st.1 cn cr.2 with
    | .ok (d, m, r) => .ok (d, maskUnion st.2.1 m, st.2.2 ++ r)
    | .error ((d, m, r), e) =>
      .ok (d, maskUnion st.2.1 m,
        st.2.2 ++ (r ++ [s!"Unexpected error handling column '{cn}': {e}"]))
  else .ok (st.1, st.2.1, st.2.2 ++ [s!"Column '{cn}' is missing from DataFrame."])

/-- The whole run with raising typed. -/
def cleanAndValidatePy (df : DataFrame) (schema : Schema) :
    Except String (DataFrame × List String) := do
  let p ← crossPhasePy df schema
  let q ← schema.rules.foldlM columnStepPy (p.1, ([] : Mask), ([] : List String))
  let cnt := q.2.1.length
  if cnt ≠ 0 then
    pure (resetIndex (dropRows q.1 q.2.1),
      p.2 ++ q.2.2 ++ [s!"Dropping {cnt} row(s) due to validation."])
  else pure (resetIndex q.1, p.2 ++ q.2.2)

/-! ### Preservation lemmas: column stages mutate cells, never rows -/

/-- A table transformation that keeps the column list and the labelled row
skeleton (same labels, same order, same count). -/
def Pres (df df' : DataFrame) : Prop :=
  df'.cols = df.cols ∧ df'.rows.map Prod.fst = df.rows.map Prod.fst

theorem Pres.refl (df : DataFrame) : Pres df df := ⟨rfl, rfl⟩

theorem Pres.trans {a b c : DataFrame} (h1 : Pres a b) (h2 : Pres b c) : Pres a c :=
  ⟨h2.1.trans h1.1, h2.2.trans h1.2⟩

theorem pres_setColBy (df : DataFrame) (c : String) (f : Nat → Value → Value) :
    Pres df (setColBy df c f) := by
  refine ⟨rfl, ?_⟩
  simp [setColBy]

theorem pres_setColList (df : DataFrame) (c : String) (vs : List Value)
    (h : df.rows.length ≤ vs.length) : Pres df (setColList df c vs) := by
  refine ⟨rfl, ?_⟩
  simp only [setColList, List.map_map]
  have : (Prod.fst ∘ fun p : (Nat × List Value) × Value => (p.1.1, p.1.2.set (colIdxOf df c) p.2)) =
      Prod.fst ∘ Prod.fst := rfl
  rw [this, ← List.map_map, List.map_fst_zip _ _ h]

theorem convertColVals_length (d : String) (vs ws : List Value)
    (h : convertColVals d vs = .ok ws) : vs.length ≤ ws.length := by
  unfold convertColVals at h
  split at h
  · cases h; simp
  · split at h
    · cases h; simp
    · unfold astypeCol at h
      split at h
      · cases h; simp
      · split at h
        · cases h; simp
        · cases h

theorem pres_nullStage (df : DataFrame) (c : String) (rule : ColumnRule) :
    Pres df (nullStage df c rule).1 := by
  unfold nullStage
  dsimp only
  repeat' split
  all_goals first
    | exact Pres.refl df
    | exact pres_setColBy ..

theorem pres_regexStage (df : DataFrame) (c : String) (rule : ColumnRule) :
    Pres df (regexStage df c rule).1 := by
  unfold regexStage
  dsimp only
  repeat' split
  all_goals first
    | exact Pres.refl df
    | exact pres_setColBy ..

theorem pres_convert_dtype (df : DataFrame) (c : String) (rule : ColumnRule) :
    Pres df (convert_dtype df c rule).1 := by
  unfold convert_dtype
  dsimp only
  split
  · exact Pres.refl df
  · split
    · exact Pres.refl df
    · rename_i d _ conv hconv
      have hlen : df.rows.length ≤ conv.length := by
        have := convertColVals_length _ _ _ hconv
        simpa [colOf] using this
      repeat' split
      all_goals exact pres_setColList _ _ _ hlen

theorem pres_minStage (df : DataFrame) (c : String) (rule : ColumnRule) :
    Pres df (minStage df c rule).1 := by
  unfold minStage
  dsimp only
  repeat' split
  all_goals first
    | exact Pres.refl df
    | exact pres_setColBy ..

theorem pres_maxStage (df : DataFrame) (c : String) (rule : ColumnRule) :
    Pres df (maxStage df c rule).1 := by
  unfold maxStage
  dsimp only
  repeat' split
  all_goals first
    | exact Pres.refl df
    | exact pres_setColBy ..

theorem pres_allowedStage (df : DataFrame) (c : String) (rule : ColumnRule) :
    Pres df (allowedStage df c rule).1 := by
  unfold allowedStage
  dsimp only
  split
  · exact Pres.refl df
  · repeat' split
    all_goals first
      | exact pres_setColBy ..
      | exact Pres.trans (pres_setColBy ..) (pres_setColBy ..)

theorem pres_apply_constraints (df : DataFrame) (c : String) (rule : ColumnRule) :
    Pres df (apply_constraints df c rule).1 := by
  unfold apply_constraints
  exact Pres.trans (pres_minStage ..) (Pres.trans (pres_maxStage ..) (pres_allowedStage ..))

theorem pres_apply_custom_validator (df : DataFrame) (c : String) (rule : ColumnRule) :
    Pres df (apply_custom_validator df c rule).1 := by
  unfold apply_custom_validator
  dsimp only
  repeat' split
  all_goals first
    | exact Pres.refl df
    | exact pres_setColBy ..

/-- The table after the five value-mutating stages of one column. -/
def colStagesDF (df : DataFrame) (c : String) (rule : ColumnRule) : DataFrame :=
  (apply_custom_validator (apply_constraints (convert_dtype
    (regexStage (nullStage df c rule).1 c rule).1 c rule).1 c rule).1 c rule).1

theorem validateColumnBody_df (df : DataFrame) (c : String) (rule : ColumnRule) :
    (match validateColumnBody df c rule with
     | .ok st => st.1
     | .error (st, _) => st.1) = colStagesDF df c rule := by
  unfold validateColumnBody colStagesDF
  dsimp only
  generalize uniqueStage _ c rule = u
  cases u with
  | ok p => obtain ⟨m6, r6⟩ := p; rfl
  | error p => obtain ⟨r6, e⟩ := p; rfl

theorem validate_column_df (df : DataFrame) (c : String) (rule : ColumnRule) :
    (validate_column df c rule).1 = colStagesDF df c rule := by
  have hb := validateColumnBody_df df c rule
  unfold validate_column
  cases h : validateColumnBody df c rule with
  | ok st =>
    rw [h] at hb
    simpa using hb
  | error p =>
    obtain ⟨st, e⟩ := p
    rw [h] at hb
    simpa using hb

theorem pres_colStagesDF (df : DataFrame) (c : String) (rule : ColumnRule) :
    Pres df (colStagesDF df c rule) :=
  Pres.trans (pres_nullStage ..) (Pres.trans (pres_regexStage ..)
    (Pres.trans (pres_convert_dtype ..)
      (Pres.trans (pres_apply_constraints ..) (pres_apply_custom_validator ..))))

theorem pres_validate_column (df : DataFrame) (c : String) (rule : ColumnRule) :
    Pres df (validate_column df c rule).1 := by
  rw [validate_column_df]
  exact pres_colStagesDF ..

theorem pres_columnPhase :
    ∀ (rules : List (String × ColumnRule)) (st : DataFrame × Mask × List String),
      Pres st.1 (rules.foldl columnStep st).1 := by
  intro rules
  induction rules with
  | nil => exact fun st => Pres.refl st.1
  | cons cr rest ih =>
    intro st
    have hstep : Pres st.1 (columnStep st cr).1 := by
      unfold columnStep
      dsimp only
      split
      · have := pres_validate_column st.1 cr.1 cr.2
        cases h : validate_column st.1 cr.1 cr.2 with
        | mk d p => rw [h] at this; simpa using this
      · exact Pres.refl st.1
    exact Pres.trans hstep (ih (columnStep st cr))

theorem dropRows_nil (df : DataFrame) : dropRows df [] = df := by
  simp [dropRows]

theorem resetIndex_map_snd (df : DataFrame) :
    (resetIndex df).rows.map Prod.snd = df.rows.map Prod.snd := by
  simp [resetIndex, List.enum_map_snd]

theorem resetIndex_map_fst (df : DataFrame) :
    (resetIndex df).rows.map Prod.fst = List.range df.rows.length := by
  simp [resetIndex, List.enum_map_fst]

/-- The output table of a run is the column-phase table with the union
mask's rows removed in one pass, reindexed. -/
theorem clean_and_validate_fst (df : DataFrame) (s : Schema) :
    (clean_and_validate df s).1 =
      resetIndex (dropRows (columnPhase (crossPhase df s).1 s).1
        (columnPhase (crossPhase df s).1 s).2.1) := by
  unfold clean_and_validate
  dsimp only
  split
  · rfl
  · rename_i h
    have hm : (columnPhase (crossPhase df s).1 s).2.1 = [] :=
      List.length_eq_zero.mp (by omega)
    rw [hm, dropRows_nil]

/-- C1: per-column drop flags are only accumulated while columns run —
the stage masks are unioned (logical OR) into one mask, no row leaves the
table during the per-column phase, the flagged rows are removed in one
final pass, and the result is reindexed contiguously from zero. -/
theorem C1_deferred_single_removal_pass (df : DataFrame) (s : Schema) :
    (∀ (ℓ : Nat) (m m' : Mask), ℓ ∈ maskUnion m m' ↔ ℓ ∈ m ∨ ℓ ∈ m') ∧
    (columnPhase (crossPhase df s).1 s).1.rows.map Prod.fst =
      (crossPhase df s).1.rows.map Prod.fst ∧
    (clean_and_validate df s).1.rows.map Prod.snd =
      (dropRows (columnPhase (crossPhase df s).1 s).1
        (columnPhase (crossPhase df s).1 s).2.1).rows.map Prod.snd ∧
    (clean_and_validate df s).1.rows.map Prod.fst =
      List.range (dropRows (columnPhase (crossPhase df s).1 s).1
        (columnPhase (crossPhase df s).1 s).2.1).rows.length := by
  refine ⟨?_, ?_, ?_, ?_⟩
  · intro ℓ m m'
    simp only [maskUnion, List.mem_append, List.mem_filter]
    constructor
    · rintro (h | ⟨h, _⟩)
      · exact Or.inl h
      · exact Or.inr h
    · intro h
      by_cases hm : ℓ ∈ m
      · exact Or.inl hm
      · rcases h with h | h
        · exact absurd h hm
        · exact Or.inr ⟨h, by simpa using hm⟩
  · exact (pres_columnPhase s.rules ((crossPhase df s).1, [], [])).2
  · rw [clean_and_validate_fst, resetIndex_map_snd]
  · rw [clean_and_validate_fst, resetIndex_map_fst]

/-- C8: table id=[1,1,2] under rule {unique: true} with no resolver — the
report says 2 duplicate values were found and 1 row marked for removal, and
the output keeps the first occurrence of each value, id=[1,2], reindexed. -/
theorem C8_unique_default_keeps_first :
    clean_and_validate ⟨["id"], [(0, [.int 1]), (1, [.int 1]), (2, [.int 2])]⟩
      { rules := [("id", { unique := true })] } =
    (⟨["id"], [(0, [.int 1]), (1, [.int 2])]⟩,
      ["Found 2 duplicate value(s) in column 'id'.",
       "Marked 1 duplicate row(s) in column 'id' for removal, keeping only unique entries.",
       "Dropping 1 row(s) due to validation."]) := by decide

/-- C4 (code bug): the pattern step stringifies a null to "nan" before
matching, so a null IS counted among the pattern failures — it is marked
for drop when `drop_if_invalid` and replaced with the fill value otherwise,
although the source's dead `na=True` (and the spec) intend nulls to
auto-match. -/
theorem C4_null_counted_as_pattern_failure :
    strOfVal .null = "nan" ∧
    clean_and_validate ⟨["zip"], [(0, [.null])]⟩
      { rules := [("zip", { regex := some (.compiled
          [.digit, .digit, .digit, .digit, .digit, .endA]), drop_if_invalid := true })] } =
    (⟨["zip"], []⟩,
      ["1 value(s) in 'zip' failed regex validation and were marked for drop.",
       "Dropping 1 row(s) due to validation."]) ∧
    clean_and_validate ⟨["zip"], [(0, [.null])]⟩
      { rules := [("zip", { regex := some (.compiled
          [.digit, .digit, .digit, .digit, .digit, .endA]) })] } =
    (⟨["zip"], [(0, [.null])]⟩,
      ["Replaced 1 value(s) in 'zip' failing regex with None."]) := by decide

/-- C6 (code bug): the engine calls the custom validator through
`Series.apply` with the cell value as its single argument.  A validator
with the documented two-argument signature raises TypeError, the stage
aborts with an error message and validates nothing; a one-argument callable
receives the cell value and its boolean result drives the drop policy. -/
theorem C6_validator_called_with_value_only :
    clean_and_validate ⟨["a"], [(0, [.int 1])]⟩
      { rules := [("a", { custom_validator := some (.arity2 (fun _ _ => some false)),
                          drop_if_invalid := true })] } =
    (⟨["a"], [(0, [.int 1])]⟩,
      ["Error applying custom validator to 'a': TypeError: missing 1 required positional argument"]) ∧
    clean_and_validate ⟨["a"], [(0, [.int 1]), (1, [.int 2])]⟩
      { rules := [("a", { custom_validator := some (.arity1 (fun v => some (decide (v = .int 2)))),
                          drop_if_invalid := true })] } =
    (⟨["a"], [(0, [.int 2])]⟩,
      ["1 value(s) failed custom validation in 'a' and were marked for drop.",
       "Dropping 1 row(s) due to validation."]) := by decide

/-! ### C5: start-anchored (prefix) matching -/

/-- A pattern with no end anchor that fully matches `cs` also `re.match`-es
any extension of `cs`. -/
theorem matchToks_append_of_whole (ts : List RTok) :
    ∀ (cs ds : List Char), noEndAnchor ts = true → matchWhole ts cs = true →
      matchToks ts (cs ++ ds) = true := by
  induction ts with
  | nil => intro cs ds _ _; rfl
  | cons t ts ih =>
    intro cs ds hne hm
    have hne' : noEndAnchor ts = true := by
      simp only [noEndAnchor, List.all_cons, Bool.and_eq_true] at hne
      exact hne.2
    cases t with
    | endA =>
      simp [noEndAnchor] at hne
    | lit c =>
      cases cs with
      | nil => simp [matchWhole] at hm
      | cons d cs' =>
        simp only [matchWhole, Bool.and_eq_true, decide_eq_true_eq] at hm
        simpa [matchToks, hm.1] using ih cs' ds hne' hm.2
    | digit =>
      cases cs with
      | nil => simp [matchWhole] at hm
      | cons d cs' =>
        simp only [matchWhole, Bool.and_eq_true] at hm
        simpa [matchToks, hm.1] using ih cs' ds hne' hm.2
    | anyc =>
      cases cs with
      | nil => simp [matchWhole] at hm
      | cons d cs' =>
        simp only [matchWhole] at hm
        simpa [matchToks] using ih cs' ds hne' hm

/-- C5 (amended): the pattern check uses `str.match` = `re.match`, anchored
at the start only.  A cell whose stringified form extends a full match of
an unanchored pattern is counted valid: the regex step flags nothing,
rewrites nothing and reports nothing for it, whatever the drop policy. -/
theorem C5_start_anchored_match_only (cn : String) (ts : List RTok) (s t : String)
    (rule : ColumnRule) (ℓ : Nat)
    (hrx : rule.regex = some (.compiled ts))
    (hne : noEndAnchor ts = true) (hm : matchWhole ts s.data = true) :
    regexStage ⟨[cn], [(ℓ, [.str (s ++ t)])]⟩ cn rule =
      (⟨[cn], [(ℓ, [.str (s ++ t)])]⟩, [], []) := by
  have hmatch : reMatch ts (strOfVal (.str (s ++ t))) = true := by
    show matchToks ts (s ++ t).data = true
    rw [String.data_append]
    exact matchToks_append_of_whole ts s.data t.data hne hm
  unfold regexStage
  rw [hrx]
  dsimp only
  simp [maskOf, colOf, colIdxOf, List.findIdx_cons, hmatch]

/-- C5 counterexample to the claim as stated: the five-digit pattern fully
matches only the proper prefix "12345" of the stringified value
"12345abc", yet the engine counts the value valid and neither drops nor
replaces it. -/
theorem C5_proper_prefix_not_flagged :
    matchWhole [RTok.digit, .digit, .digit, .digit, .digit] "12345".data = true ∧
    strOfVal (.str "12345abc") = "12345" ++ "abc" ∧
    matchWhole [RTok.digit, .digit, .digit, .digit, .digit] "12345abc".data = false ∧
    clean_and_validate ⟨["zip"], [(0, [.str "12345abc"])]⟩
      { rules := [("zip", { regex := some (.compiled
          [.digit, .digit, .digit, .digit, .digit]), drop_if_invalid := true })] } =
    (⟨["zip"], [(0, [.str "12345abc"])]⟩, []) := by decide

/-- Witness for the amended C5 at the counterexample's input. -/
theorem C5_start_anchored_match_only_witness :
    noEndAnchor [RTok.digit, .digit, .digit, .digit, .digit] = true ∧
    matchWhole [RTok.digit, .digit, .digit, .digit, .digit] "12345".data = true ∧
    regexStage ⟨["zip"], [(0, [.str ("12345" ++ "abc")])]⟩ "zip"
      { regex := some (.compiled [RTok.digit, .digit, .digit, .digit, .digit]),
        drop_if_invalid := true } =
      (⟨["zip"], [(0, [.str ("12345" ++ "abc")])]⟩, [], []) :=
  ⟨by decide, by decide,
    C5_start_anchored_match_only "zip" [RTok.digit, .digit, .digit, .digit, .digit]
      "12345" "abc" _ 0 rfl (by decide) (by decide)⟩

/-! ### C10: unrecognised cross-validation types -/

/-- C10: a cross-validation entry whose type tag is absent or none of
comparison/aggregate/conditional is silently skipped — the table is
untouched and not one message is appended, alone or as the only entry of a
table rule. -/
theorem C10_unknown_cross_type_silently_skipped (df : DataFrame) (ck : CrossCheck)
    (h1 : ck.ctype ≠ some "comparison") (h2 : ck.ctype ≠ some "aggregate")
    (h3 : ck.ctype ≠ some "conditional") :
    crossCheckStep df ck = (df, []) ∧
    validate_dataframe df { cross_validations := some [ck] } = (df, []) := by
  have hstep : crossCheckStep df ck = (df, []) := by
    unfold crossCheckStep crossCheckBody
    simp [h1, h2, h3, pure, Except.pure]
  refine ⟨hstep, ?_⟩
  unfold validate_dataframe validateDataframeBody
  simp [minMaxRowMsgs, dedupStage, uniqueKeysMsgs, expectedColMsgs, crossFold, hstep]

/-- Witness for C10 at a concrete unknown type tag. -/
theorem C10_unknown_cross_type_witness :
    ((some "frobnicate" : Option String) ≠ some "comparison" ∧
      (some "frobnicate" : Option String) ≠ some "aggregate" ∧
      (some "frobnicate" : Option String) ≠ some "conditional") ∧
    crossCheckStep ⟨["a"], [(0, [.int 1])]⟩ { ctype := some "frobnicate" } =
      (⟨["a"], [(0, [.int 1])]⟩, []) ∧
    validate_dataframe ⟨["a"], [(0, [.int 1])]⟩
      { cross_validations := some [{ ctype := some "frobnicate" }] } =
      (⟨["a"], [(0, [.int 1])]⟩, []) := by
  refine ⟨⟨by decide, by decide, by decide⟩, ?_, ?_⟩
  · exact (C10_unknown_cross_type_silently_skipped _ _ (by decide) (by decide) (by decide)).1
  · exact (C10_unknown_cross_type_silently_skipped _ _ (by decide) (by decide) (by decide)).2

/-! ### C2: immediate cross-validation drops -/

/-- The expression never faults. -/
def RowExprTotal (e : RowExpr) : Prop := ∀ cs r, (e.fn cs r).isSome

/-- The rows a comparison-drop check keeps: those satisfying the
condition. -/
def comparisonKeeps (e : RowExpr) (df : DataFrame) : DataFrame :=
  { df with rows := df.rows.filter (fun rw => (e.fn df.cols rw.2).getD false) }

/-- The rows a conditional-drop check keeps: those not satisfying
`if ∧ ¬then`. -/
def conditionalKeeps (ie te : RowExpr) (df : DataFrame) : DataFrame :=
  { df with
    rows := df.rows.filter
      (fun rw => !((ie.fn df.cols rw.2).getD false && !((te.fn df.cols rw.2).getD false))) }

theorem mapM_ok_of_forall {α β : Type} (g : α → Except String β) (f : α → β) :
    ∀ (l : List α), (∀ a ∈ l, g a = .ok (f a)) → l.mapM g = .ok (l.map f) := by
  intro l
  induction l with
  | nil => intro _; rfl
  | cons a l ih =>
    intro h
    rw [List.mapM_cons, h a (by simp), ih (fun x hx => h x (by simp [hx]))]
    rfl

theorem evalRowMask_total (e : RowExpr) (df : DataFrame) (he : RowExprTotal e) :
    evalRowMask e df =
      .ok (df.rows.map (fun rw => (e.fn df.cols rw.2).getD false)) := by
  unfold evalRowMask
  refine mapM_ok_of_forall _ _ _ (fun rw _ => ?_)
  have := he df.cols rw.2
  cases hfn : e.fn df.cols rw.2 with
  | none => rw [hfn] at this; simp at this
  | some b => simp [hfn]

theorem zip_filter_snd {α : Type} (q : α → Bool) :
    ∀ (l : List α),
      (((l.zip (l.map q)).filter (fun x => x.2)).map Prod.fst) = l.filter q := by
  intro l
  induction l with
  | nil => rfl
  | cons a l ih =>
    simp only [List.map_cons, List.zip_cons_cons, List.filter_cons]
    cases hqa : q a <;> simp [hqa, ih]

theorem zip_filter_not_snd {α : Type} (q : α → Bool) :
    ∀ (l : List α),
      (((l.zip (l.map q)).filter (fun x => !x.2)).map Prod.fst) =
        l.filter (fun a => !q a) := by
  intro l
  induction l with
  | nil => rfl
  | cons a l ih =>
    simp only [List.map_cons, List.zip_cons_cons, List.filter_cons]
    cases hqa : q a <;> simp [hqa, ih]

theorem zipWith_map_same {α : Type} (f : Bool → Bool → Bool) (p q : α → Bool) :
    ∀ (l : List α),
      List.zipWith f (l.map p) (l.map q) = l.map (fun a => f (p a) (q a)) := by
  intro l
  induction l with
  | nil => rfl
  | cons a l ih => simp [ih]

/-- The check `{type: comparison, condition: e, action: drop}`. -/
def comparisonDropCheck (e : RowExpr) : CrossCheck :=
  { ctype := some "comparison", action := some "drop", condition := some e }

/-- The check `{type: conditional, if: ie, then: te, action: drop}`. -/
def conditionalDropCheck (ie te : RowExpr) : CrossCheck :=
  { ctype := some "conditional", action := some "drop",
    ifExpr := some ie, thenExpr := some te }

theorem comparison_drop_rows (df : DataFrame) (e : RowExpr) (he : RowExprTotal e) :
    (crossCheckStep df (comparisonDropCheck e)).1 = comparisonKeeps e df := by
  unfold comparisonDropCheck
  unfold crossCheckStep crossCheckBody
  simp [bind, Except.bind, pure, Except.pure, getField, evalRowMask_total e df he]
  split <;> rename_i hsp
  · split at hsp <;> rename_i hbr <;> cases hsp
    · show ({ cols := df.cols, rows := _ } : DataFrame) = comparisonKeeps e df
      simp only [comparisonKeeps]
      congr 1
      exact zip_filter_snd _ df.rows
    · show df = comparisonKeeps e df
      have hall : ∀ rw ∈ df.rows, (e.fn df.cols rw.2).getD false = true := by
        intro rw hrw
        by_contra hfalse
        have hf : (e.fn df.cols rw.2).getD false = false := by simpa using hfalse
        refine hbr (List.any_eq_true.mpr ⟨!(e.fn df.cols rw.2).getD false, ?_, ?_⟩)
        · exact List.mem_map.mpr
            ⟨(e.fn df.cols rw.2).getD false, List.mem_map.mpr ⟨rw, hrw, rfl⟩, rfl⟩
        · simp [hf]
      have hfl : df.rows.filter (fun rw => (e.fn df.cols rw.2).getD false) = df.rows :=
        List.filter_eq_self.mpr hall
      simp only [comparisonKeeps, hfl]
  · split at hsp <;> simp at hsp

theorem conditional_drop_rows (df : DataFrame) (ie te : RowExpr)
    (hie : RowExprTotal ie) (hte : RowExprTotal te) :
    (crossCheckStep df (conditionalDropCheck ie te)).1 = conditionalKeeps ie te df := by
  unfold conditionalDropCheck
  unfold crossCheckStep crossCheckBody
  simp [bind, Except.bind, pure, Except.pure, getField,
    evalRowMask_total ie df hie, evalRowMask_total te df hte]
  split <;> rename_i hsp
  · split at hsp <;> rename_i hbr <;> cases hsp
    · show ({ cols := df.cols, rows := _ } : DataFrame) = conditionalKeeps ie te df
      simp only [conditionalKeeps]
      congr 1
      exact zip_filter_not_snd _ df.rows
    · rw [zipWith_map_same (fun a b => a && !b)] at hbr
      show df = conditionalKeeps ie te df
      have hall : ∀ rw ∈ df.rows,
          (!((ie.fn df.cols rw.2).getD false && !((te.fn df.cols rw.2).getD false))) = true := by
        intro rw hrw
        by_contra hfalse
        have hq : ((ie.fn df.cols rw.2).getD false && !((te.fn df.cols rw.2).getD false)) =
            true := by simpa using hfalse
        refine hbr (List.any_eq_true.mpr
          ⟨(ie.fn df.cols rw.2).getD false && !((te.fn df.cols rw.2).getD false), ?_, hq⟩)
        exact List.mem_map.mpr ⟨rw, hrw, rfl⟩
      have hfl : df.rows.filter
          (fun rw => !((ie.fn df.cols rw.2).getD false && !((te.fn df.cols rw.2).getD false))) =
          df.rows := List.filter_eq_self.mpr hall
      simp only [conditionalKeeps, hfl]
  · split at hsp <;> simp at hsp

/-- C2: comparison and conditional cross-validations with `action = drop`
remove their failing rows immediately inside the cross-validation state,
and the per-column phase of the run is applied to the already-reduced
table — whatever per-column rules follow. -/
theorem C2_cross_validation_drops_immediately (df : DataFrame) (e ie te : RowExpr)
    (he : RowExprTotal e) (hie : RowExprTotal ie) (hte : RowExprTotal te) :
    (crossCheckStep df (comparisonDropCheck e)).1 = comparisonKeeps e df ∧
    (crossCheckStep df (conditionalDropCheck ie te)).1 = conditionalKeeps ie te df ∧
    (∀ rules : List (String × ColumnRule),
      (crossPhase df
        { rules := rules,
          dataframe_rule := some { cross_validations := some [comparisonDropCheck e] } }).1 =
      comparisonKeeps e df) := by
  refine ⟨comparison_drop_rows df e he, conditional_drop_rows df ie te hie hte, ?_⟩
  intro rules
  have hrep := comparison_drop_rows df e he
  unfold crossPhase validate_dataframe validateDataframeBody
  simp [minMaxRowMsgs, dedupStage, uniqueKeysMsgs, expectedColMsgs, crossFold, hrep]

/-- The row expression "start<=end" over a two-column table; rows whose
cells are not both numeric count as failing, and evaluation never
faults. -/
def startLeEnd : RowExpr :=
  { text := "start<=end",
    fn := fun _ r =>
      some (match r.getD 0 Value.null, r.getD 1 Value.null with
        | .int a, .int b => decide (a ≤ b)
        | _, _ => false) }

/-- Witness for C2: one violating row is removed during the
cross-validation itself. -/
theorem C2_cross_validation_witness :
    RowExprTotal startLeEnd ∧
    (crossCheckStep ⟨["start", "end"], [(0, [.int 1, .int 2]), (1, [.int 5, .int 3])]⟩
        (comparisonDropCheck startLeEnd)).1 =
      comparisonKeeps startLeEnd
        ⟨["start", "end"], [(0, [.int 1, .int 2]), (1, [.int 5, .int 3])]⟩ ∧
    comparisonKeeps startLeEnd
        ⟨["start", "end"], [(0, [.int 1, .int 2]), (1, [.int 5, .int 3])]⟩ =
      ⟨["start", "end"], [(0, [.int 1, .int 2])]⟩ := by
  refine ⟨fun cs r => rfl, ?_, by decide⟩
  exact (C2_cross_validation_drops_immediately _ startLeEnd startLeEnd startLeEnd
    (fun cs r => rfl) (fun cs r => rfl) (fun cs r => rfl)).1

/-! ### C3: no fault escapes the pipeline -/

theorem crossPhasePy_eq (df : DataFrame) (s : Schema) :
    crossPhasePy df s = .ok (crossPhase df s) := by
  unfold crossPhasePy crossPhase validate_dataframe
  cases s.dataframe_rule with
  | none => rfl
  | some dr =>
    cases h : validateDataframeBody df dr with
    | ok st => simp only [h]
    | error p => obtain ⟨st, e⟩ := p; simp only [h]

theorem columnStepPy_eq (st : DataFrame × Mask × List String) (cr : String × ColumnRule) :
    columnStepPy st cr = .ok (columnStep st cr) := by
  unfold columnStepPy columnStep validate_column
  dsimp only
  split
  · cases h : validateColumnBody st.1 cr.1 cr.2 with
    | ok out => obtain ⟨d, m, r⟩ := out; rfl
    | error p => obtain ⟨⟨d, m, r⟩, e⟩ := p; rfl
  · rfl

theorem foldlM_ok {σ α : Type} (gM : σ → α → Except String σ) (g : σ → α → σ)
    (hg : ∀ st a, gM st a = .ok (g st a)) :
    ∀ (l : List α) (st : σ), l.foldlM gM st = .ok (l.foldl g st) := by
  intro l
  induction l with
  | nil => intro st; rfl
  | cons a l ih =>
    intro st
    rw [List.foldlM_cons, hg st a, List.foldl_cons]
    simpa [bind, Except.bind] using ih (g st a)

/-- C3: the raising model of the whole run — every collaborator fault
(malformed pattern, failing aggregate fill, raising validator or resolver,
faulting cross-validation expression) typed as a Python exception — always
returns `ok` of the total run's result: each raise site sits under one of
the source's handlers, so no fault escapes the pipeline. -/
theorem C3_no_unhandled_fault (df : DataFrame) (s : Schema) :
    cleanAndValidatePy df s = Except.ok (clean_and_validate df s) := by
  unfold cleanAndValidatePy clean_and_validate columnPhase
  rw [crossPhasePy_eq df s]
  simp only [bind, Except.bind]
  rw [foldlM_ok columnStepPy columnStep columnStepPy_eq s.rules
    ((crossPhase df s).1, ([] : Mask), ([] : List String))]
  dsimp only
  split <;> rfl

/-! ### C9: the caller's table is never mutated -/

/-- A store of DataFrame objects, the references being positions. -/
abbrev Heap := List DataFrame

def readRef (h : Heap) (r : Nat) : DataFrame := h.getD r ⟨[], []⟩

/-- `clean_and_validate` at the reference level.  `df_cleaned = df.copy()`
allocates a fresh cell holding a deep copy; every in-place mutation of the
run targets the working cell (each mutating statement of the source acts on
`df_cleaned`), modelled by writing the run's result there; the caller's
cell is never written. -/
def cleanAndValidateRef (h : Heap) (r : Nat) (s : Schema) : Heap × Nat × List String :=
  let h1 := h ++ [readRef h r]
  let rnew := h.length
  let res := clean_and_validate (readRef h1 rnew) s
  (h1.set rnew res.1, rnew, res.2)

/-- C9: after a run, the caller's DataFrame cell — rows, columns, values —
is exactly what it was, and the run's working table is a different
object. -/
theorem heap_getD_set_ne {α : Type} (l : List α) (i j : Nat) (a d : α) (hne : i ≠ j) :
    (l.set i a).getD j d = l.getD j d := by
  simp [List.getD, List.getElem?_set_ne hne]

theorem C9_caller_table_unchanged (h : Heap) (r : Nat) (s : Schema) (hr : r < h.length) :
    readRef (cleanAndValidateRef h r s).1 r = readRef h r ∧
    (cleanAndValidateRef h r s).2.1 ≠ r := by
  constructor
  · unfold cleanAndValidateRef
    dsimp only
    unfold readRef
    rw [heap_getD_set_ne _ _ _ _ _ (by omega : h.length ≠ r)]
    exact List.getD_append h [(h.getD r ⟨[], []⟩)] _ r hr
  · unfold cleanAndValidateRef
    dsimp only
    omega

/-- Witness for C9 on a one-cell heap. -/
theorem C9_caller_table_unchanged_witness :
    (0 : Nat) < ([(⟨["a"], [(0, [Value.int 1])]⟩ : DataFrame)] : Heap).length ∧
    readRef (cleanAndValidateRef [(⟨["a"], [(0, [Value.int 1])]⟩ : DataFrame)] 0 {}).1 0 =
      readRef [(⟨["a"], [(0, [Value.int 1])]⟩ : DataFrame)] 0 :=
  ⟨by decide,
    (C9_caller_table_unchanged [(⟨["a"], [(0, [Value.int 1])]⟩ : DataFrame)] 0 {}
      (by decide)).1⟩

/-! ### C7: idempotence of drop-only schemas

The claim as frozen fails on the code: a dtype conversion rewrites the
surviving values (e.g. "007" becomes 7), and a pattern evaluated against
the rewritten text on a second run can now fail; the counterexample below
exhibits a row that only the second pass removes.  The amended claim
restricts to drop-only schemas without value-rewriting dtype conversions
and without evaluation faults, for which the first run's survivors are
bitwise unchanged and pass every check again. -/

/-- The cell of row `rw` in the column named `c`, for the column list
`cols`. -/
def cellAt (cols : List String) (c : String) (r : List Value) : Value :=
  r.getD (cols.findIdx (fun x => x = c)) Value.null

/-- The categorical cast a rule's `allowed_values` check always applies. -/
def castA (rule : ColumnRule) (v : Value) : Value :=
  match rule.allowed_values with
  | some av => if v ∈ av then v else .null
  | none => v

/-- Failure of the custom check on one (already cast) cell, for a total
one-argument validator. -/
def customBad (rule : ColumnRule) (v : Value) : Bool :=
  match rule.custom_validator with
  | some (.arity1 g) => !((g v).getD true)
  | _ => false

/-- Failure of a drop-only rule on one cell: the per-stage invalidity
predicates of `validate_column` in stage order, the custom check applied to
the post-categorical value. -/
def colBadP (rule : ColumnRule) (v : Value) : Bool :=
  (!rule.allow_null && v.isNull) ||
  (match rule.regex with
   | some (.compiled ts) => !reMatch ts (strOfVal v)
   | _ => false) ||
  (match rule.min with | some m => vltBound v m | none => false) ||
  (match rule.max with | some m => vgtBound v m | none => false) ||
  (match rule.allowed_values with | some av => decide (v ∉ av) | none => false) ||
  customBad rule (castA rule v)

/-- The table after one drop-only column rule: only the categorical cast
mutates values. -/
def colCast (df : DataFrame) (c : String) (rule : ColumnRule) : DataFrame :=
  match rule.allowed_values with
  | some av => setColBy df c (fun _ v => if v ∈ av then v else .null)
  | none => df

/-- The custom validator is absent, or a total one-argument callable. -/
def ValidatorTotal : Option PyFun → Prop
  | none => True
  | some (.arity1 g) => ∀ v, (g v).isSome
  | some (.arity2 _) => False

/-- A rule of the amended idempotence claim: drop-only, no uniqueness, no
value-rewriting dtype conversion, fault-free custom validation. -/
def RuleDropOnly (r : ColumnRule) : Prop :=
  r.drop_if_invalid = true ∧ r.unique = false ∧ r.dtype = none ∧
    ValidatorTotal r.custom_validator

def OptExprTotal : Option RowExpr → Prop
  | none => True
  | some e => RowExprTotal e

/-- Every expression a cross-validation check may evaluate is total. -/
def CheckTotal (ck : CrossCheck) : Prop :=
  OptExprTotal ck.condition ∧ OptExprTotal ck.ifExpr ∧ OptExprTotal ck.thenExpr

/-- The checks of a table rule, `[]` when absent. -/
def cksOf (dr : DataFrameRule) : List CrossCheck :=
  dr.cross_validations.getD []

/-- The table rule is absent, or all its cross-validation expressions are
total. -/
def DrTotal : Option DataFrameRule → Prop
  | none => True
  | some dr => ∀ ck ∈ cksOf dr, CheckTotal ck

/-- `unique_keys` does not raise: absent, empty, or all named columns are
present. -/
def UkOK (dr : DataFrameRule) (cols : List String) : Prop :=
  match dr.unique_keys with
  | none => True
  | some keys => keys.isEmpty = true ∨ keys.all (fun k => k ∈ cols) = true

/-- A row passes one cross-validation check: whenever the check is a
row-dropping comparison (resp. conditional), the condition holds of the
row. -/
def CheckPasses (cols : List String) (ck : CrossCheck) (r : List Value) : Prop :=
  (ck.ctype = some "comparison" → ck.action.getD "warn" = "drop" →
    ∀ e, ck.condition = some e → (e.fn cols r).getD false = true) ∧
  (ck.ctype = some "conditional" → ck.action.getD "warn" = "drop" →
    ∀ ie te, ck.ifExpr = some ie → ck.thenExpr = some te →
      (!((ie.fn cols r).getD false && !((te.fn cols r).getD false))) = true)

/-- A row passes every declared drop-only column rule whose column
exists. -/
def AllPass (rules : List (String × ColumnRule)) (cols : List String) (r : List Value) : Prop :=
  ∀ cr ∈ rules, cr.1 ∈ cols → colBadP cr.2 (cellAt cols cr.1 r) = false

/-- C7 counterexample to the claim as frozen: a drop-only schema (all rules
drop_if_invalid, no uniqueness, no fill at all) whose dtype conversion
rewrites "007" to 7; the first run removes nothing, the second run's
pattern check sees the rewritten "7", fails it and removes the row. -/
theorem C7_second_run_removes_rows :
    ((Schema.mk [("zip",
        { dtype := some "int",
          regex := some (.compiled [.digit, .digit, .digit, .endA]),
          drop_if_invalid := true })] none).rules.all
      (fun p => p.2.drop_if_invalid && !p.2.unique && p.2.fillna.isNone)) = true ∧
    (clean_and_validate ⟨["zip"], [(0, [.str "007"])]⟩
      (Schema.mk [("zip",
        { dtype := some "int",
          regex := some (.compiled [.digit, .digit, .digit, .endA]),
          drop_if_invalid := true })] none)).1 =
      ⟨["zip"], [(0, [.int 7])]⟩ ∧
    (clean_and_validate ⟨["zip"], [(0, [.int 7])]⟩
      (Schema.mk [("zip",
        { dtype := some "int",
          regex := some (.compiled [.digit, .digit, .digit, .endA]),
          drop_if_invalid := true })] none)).1 =
      ⟨["zip"], []⟩ := by decide

/-! #### List helpers for the idempotence proof -/

theorem list_set_getD_self {α : Type} :
    ∀ (l : List α) (i : Nat) (d : α), l.set i (l.getD i d) = l := by
  intro l
  induction l with
  | nil => intro i d; rfl
  | cons a l ih =>
    intro i d
    cases i with
    | zero => rfl
    | succ i => simpa using ih i d

theorem list_getD_set_self {α : Type} :
    ∀ (l : List α) (i : Nat) (a d : α),
      (l.set i a).getD i d = if i < l.length then a else d := by
  intro l
  induction l with
  | nil => intro i a d; simp [List.getD]
  | cons b l ih =>
    intro i a d
    cases i with
    | zero => simp [List.getD]
    | succ i => simpa using ih i a d

theorem dedupOnGo_sublist {α β : Type} [DecidableEq β] (f : α → β) :
    ∀ (l : List α) (seen : List β), (dedupOnGo f seen l).Sublist l := by
  intro l
  induction l with
  | nil => intro seen; simp [dedupOnGo]
  | cons a l ih =>
    intro seen
    unfold dedupOnGo
    split
    · exact (ih seen).trans (List.sublist_cons_self a l)
    · exact (ih (f a :: seen)).cons₂ a

theorem dedupOnGo_keys_nodup {α β : Type} [DecidableEq β] (f : α → β) :
    ∀ (l : List α) (seen : List β),
      ((dedupOnGo f seen l).map f).Nodup ∧
        ∀ b ∈ (dedupOnGo f seen l).map f, b ∉ seen := by
  intro l
  induction l with
  | nil => intro seen; simp [dedupOnGo]
  | cons a l ih =>
    intro seen
    unfold dedupOnGo
    split
    · exact ih seen
    · rename_i hna
      obtain ⟨ih1, ih2⟩ := ih (f a :: seen)
      refine ⟨?_, ?_⟩
      · simp only [List.map_cons, List.nodup_cons]
        exact ⟨fun hmem => (ih2 _ hmem) (by simp), ih1⟩
      · intro b hb
        simp only [List.map_cons, List.mem_cons] at hb
        rcases hb with rfl | hb
        · exact hna
        · intro hseen
          exact (ih2 b hb) (by simp [hseen])

theorem dedupOn_keys_nodup {α β : Type} [DecidableEq β] (f : α → β) (l : List α) :
    ((dedupOn f l).map f).Nodup :=
  (dedupOnGo_keys_nodup f l []).1

theorem dedupOn_sublist {α β : Type} [DecidableEq β] (f : α → β) (l : List α) :
    (dedupOn f l).Sublist l :=
  dedupOnGo_sublist f l []

theorem dedupOnGo_of_nodup {α β : Type} [DecidableEq β] (f : α → β) :
    ∀ (l : List α) (seen : List β), (l.map f).Nodup →
      (∀ a ∈ l, f a ∉ seen) → dedupOnGo f seen l = l := by
  intro l
  induction l with
  | nil => intro seen _ _; rfl
  | cons a l ih =>
    intro seen hnd hout
    unfold dedupOnGo
    rw [if_neg (hout a (by simp))]
    congr 1
    refine ih (f a :: seen) (by simpa using hnd.of_cons) ?_
    intro b hb
    simp only [List.mem_cons, not_or]
    refine ⟨?_, hout b (by simp [hb])⟩
    intro heq
    simp only [List.map_cons, List.nodup_cons] at hnd
    exact hnd.1 (heq ▸ List.mem_map.mpr ⟨b, hb, rfl⟩)

theorem dedupOn_of_nodup {α β : Type} [DecidableEq β] (f : α → β) (l : List α)
    (h : (l.map f).Nodup) : dedupOn f l = l :=
  dedupOnGo_of_nodup f l [] h (by simp)

theorem forall₂_map_self {α β : Type} (P : α → β → Prop) (g : α → β) (l : List α)
    (h : ∀ a ∈ l, P a (g a)) : List.Forall₂ P l (l.map g) := by
  induction l with
  | nil => simp
  | cons a l ih =>
    simp only [List.map_cons, List.forall₂_cons]
    exact ⟨h a (by simp), ih (fun x hx => h x (by simp [hx]))⟩

theorem forall₂_self {α : Type} (P : α → α → Prop) (l : List α)
    (h : ∀ a ∈ l, P a a) : List.Forall₂ P l l := by
  induction l with
  | nil => simp
  | cons a l ih =>
    simp only [List.forall₂_cons]
    exact ⟨h a (by simp), ih (fun x hx => h x (by simp [hx]))⟩

theorem forall₂_compose {α β γ : Type} {P : α → β → Prop} {Q : β → γ → Prop}
    {R : α → γ → Prop} (h : ∀ a b c, P a b → Q b c → R a c) :
    ∀ {l₁ : List α} {l₂ : List β} {l₃ : List γ},
      List.Forall₂ P l₁ l₂ → List.Forall₂ Q l₂ l₃ → List.Forall₂ R l₁ l₃ := by
  intro l₁ l₂ l₃ h₁ h₂
  induction h₁ generalizing l₃ with
  | nil => cases h₂; simp
  | cons hab htl ih =>
    cases h₂ with
    | cons hbc htl₂ =>
      exact List.Forall₂.cons (h _ _ _ hab hbc) (ih htl₂)

/-- Pointwise label-equal lists whose kept elements are value-equal filter
to the same list. -/
theorem filter_eq_of_forall₂ (M : Mask) :
    ∀ {l l' : List (Nat × List Value)},
      List.Forall₂ (fun rw rw' => rw.1 = rw'.1 ∧ (rw'.1 ∉ M → rw'.2 = rw.2)) l l' →
      l'.filter (fun rw => rw.1 ∉ M) = l.filter (fun rw => rw.1 ∉ M) := by
  intro l l' h
  induction h with
  | nil => rfl
  | cons hab htl ih =>
    rename_i a b l₁ l₂
    obtain ⟨hlab, hval⟩ := hab
    simp only [List.filter_cons]
    by_cases hmem : b.1 ∈ M
    · rw [if_neg (by simp [hmem]), if_neg (by simp [hlab ▸ hmem]), ih]
    · have hba : b = a := by
        have := hval hmem
        calc b = (b.1, b.2) := rfl
          _ = (a.1, a.2) := by rw [← hlab, this]
      rw [if_pos (by simpa using hmem), if_pos (by simp [hlab, hmem]), ih, hba]

/-! #### Per-stage characterization under a drop-only rule -/

theorem maskOf_mem (df : DataFrame) (c : String) (p : Value → Bool) (ℓ : Nat) :
    ℓ ∈ maskOf df c p ↔
      ∃ rw ∈ df.rows, rw.1 = ℓ ∧ p (cellAt df.cols c rw.2) = true := by
  simp only [maskOf, colOf, cellAt, colIdxOf, List.mem_map, List.mem_filter]
  constructor
  · rintro ⟨x, ⟨⟨rw, hrw, rfl⟩, hp⟩, rfl⟩
    exact ⟨rw, hrw, rfl, hp⟩
  · rintro ⟨rw, hrw, rfl, hp⟩
    exact ⟨(rw.1, rw.2.getD (df.cols.findIdx (fun x => x = c)) Value.null),
      ⟨⟨rw, hrw, rfl⟩, hp⟩, rfl⟩

theorem maskOf_nil (df : DataFrame) (c : String) (p : Value → Bool)
    (h : (maskOf df c p).length = 0) :
    ∀ rw ∈ df.rows, p (cellAt df.cols c rw.2) = false := by
  intro rw hrw
  by_contra hfalse
  have hp : p (cellAt df.cols c rw.2) = true := by simpa using hfalse
  have : rw.1 ∈ maskOf df c p := (maskOf_mem df c p rw.1).mpr ⟨rw, hrw, rfl, hp⟩
  rw [List.length_eq_zero.mp h] at this
  simp at this

theorem nullStage_dropOnly (df : DataFrame) (c : String) (rule : ColumnRule)
    (hd : rule.drop_if_invalid = true) :
    (nullStage df c rule).1 = df ∧
    ∀ ℓ, (ℓ ∈ (nullStage df c rule).2.1 ↔
      ∃ rw ∈ df.rows, rw.1 = ℓ ∧
        (!rule.allow_null && (cellAt df.cols c rw.2).isNull) = true) := by
  unfold nullStage
  dsimp only
  split
  · rename_i h0
    refine ⟨rfl, fun ℓ => ?_⟩
    simp only [List.not_mem_nil, false_iff]
    rintro ⟨rw, hrw, rfl, hbad⟩
    simp only [Bool.and_eq_true] at hbad
    exact absurd (maskOf_nil df c Value.isNull h0 rw hrw) (by simp [hbad.2])
  · split
    · rename_i h0 hAn
      refine ⟨rfl, fun ℓ => ?_⟩
      simp [hAn]
    · rename_i h0 hAn
      refine ⟨rfl, fun ℓ => ?_⟩
      rw [maskOf_mem]
      have hAn' : rule.allow_null = false := by simpa using hAn
      simp [hAn']

theorem regexStage_dropOnly (df : DataFrame) (c : String) (rule : ColumnRule)
    (hd : rule.drop_if_invalid = true) :
    (regexStage df c rule).1 = df ∧
    ∀ ℓ, (ℓ ∈ (regexStage df c rule).2.1 ↔
      ∃ rw ∈ df.rows, rw.1 = ℓ ∧
        (match rule.regex with
         | some (.compiled ts) => !reMatch ts (strOfVal (cellAt df.cols c rw.2))
         | _ => false) = true) := by
  unfold regexStage
  cases hrx : rule.regex with
  | none => exact ⟨rfl, fun ℓ => by simp⟩
  | some pat =>
    cases pat with
    | malformed e => exact ⟨rfl, fun ℓ => by simp⟩
    | compiled ts =>
      dsimp only
      split
      · rename_i h0
        refine ⟨rfl, fun ℓ => ?_⟩
        simp only [List.not_mem_nil, false_iff]
        rintro ⟨rw, hrw, rfl, hbad⟩
        exact absurd (maskOf_nil df c _ h0 rw hrw) (by simp [hbad])
      · rename_i h0
        refine ⟨rfl, fun ℓ => ?_⟩
        rw [maskOf_mem]

theorem minStage_dropOnly (df : DataFrame) (c : String) (rule : ColumnRule)
    (hd : rule.drop_if_invalid = true) :
    (minStage df c rule).1 = df ∧
    ∀ ℓ, (ℓ ∈ (minStage df c rule).2.1 ↔
      ∃ rw ∈ df.rows, rw.1 = ℓ ∧
        (match rule.min with
         | some m => vltBound (cellAt df.cols c rw.2) m
         | none => false) = true) := by
  unfold minStage
  cases hm : rule.min with
  | none => exact ⟨rfl, fun ℓ => by simp⟩
  | some m =>
    dsimp only
    split
    · rename_i h0
      refine ⟨rfl, fun ℓ => ?_⟩
      simp only [List.not_mem_nil, false_iff]
      rintro ⟨rw, hrw, rfl, hbad⟩
      exact absurd (maskOf_nil df c _ h0 rw hrw) (by simp [hbad])
    · rename_i h0
      refine ⟨rfl, fun ℓ => ?_⟩
      rw [maskOf_mem]

theorem maxStage_dropOnly (df : DataFrame) (c : String) (rule : ColumnRule)
    (hd : rule.drop_if_invalid = true) :
    (maxStage df c rule).1 = df ∧
    ∀ ℓ, (ℓ ∈ (maxStage df c rule).2.1 ↔
      ∃ rw ∈ df.rows, rw.1 = ℓ ∧
        (match rule.max with
         | some m => vgtBound (cellAt df.cols c rw.2) m
         | none => false) = true) := by
  unfold maxStage
  cases hm : rule.max with
  | none => exact ⟨rfl, fun ℓ => by simp⟩
  | some m =>
    dsimp only
    split
    · rename_i h0
      refine ⟨rfl, fun ℓ => ?_⟩
      simp only [List.not_mem_nil, false_iff]
      rintro ⟨rw, hrw, rfl, hbad⟩
      exact absurd (maskOf_nil df c _ h0 rw hrw) (by simp [hbad])
    · rename_i h0
      refine ⟨rfl, fun ℓ => ?_⟩
      rw [maskOf_mem]

theorem allowedStage_dropOnly (df : DataFrame) (c : String) (rule : ColumnRule)
    (hd : rule.drop_if_invalid = true) :
    (allowedStage df c rule).1 = colCast df c rule ∧
    ∀ ℓ, (ℓ ∈ (allowedStage df c rule).2.1 ↔
      ∃ rw ∈ df.rows, rw.1 = ℓ ∧
        (match rule.allowed_values with
         | some av => decide (cellAt df.cols c rw.2 ∉ av)
         | none => false) = true) := by
  unfold allowedStage colCast
  cases hav : rule.allowed_values with
  | none => exact ⟨rfl, fun ℓ => by simp⟩
  | some av =>
    dsimp only
    split
    · rename_i h0
      refine ⟨rfl, fun ℓ => ?_⟩
      simp only [List.not_mem_nil, false_iff]
      rintro ⟨rw, hrw, rfl, hbad⟩
      exact absurd (maskOf_nil df c _ h0 rw hrw) (by simp [hbad])
    · rename_i h0
      refine ⟨rfl, fun ℓ => ?_⟩
      rw [maskOf_mem]

theorem customStage_dropOnly (df : DataFrame) (c : String) (rule : ColumnRule)
    (hd : rule.drop_if_invalid = true) (hv : ValidatorTotal rule.custom_validator) :
    (apply_custom_validator df c rule).1 = df ∧
    ∀ ℓ, (ℓ ∈ (apply_custom_validator df c rule).2.1 ↔
      ∃ rw ∈ df.rows, rw.1 = ℓ ∧ customBad rule (cellAt df.cols c rw.2) = true) := by
  unfold apply_custom_validator customBad
  cases hcv : rule.custom_validator with
  | none => exact ⟨rfl, fun ℓ => by simp⟩
  | some f =>
    cases f with
    | arity2 g => rw [hcv] at hv; exact absurd hv (by simp [ValidatorTotal])
    | arity1 g =>
      rw [hcv] at hv
      have hv' : ∀ v, (g v).isSome := hv
      have hmapM : (colOf df c).mapM (fun x => callWithValue (.arity1 g) x.2) =
          .ok ((colOf df c).map (fun x => (g x.2).getD true)) := by
        refine mapM_ok_of_forall _ _ _ (fun x _ => ?_)
        have := hv' x.2
        cases hg : g x.2 with
        | none => rw [hg] at this; simp at this
        | some b => simp [callWithValue, hg]
      dsimp only
      rw [hmapM]
      dsimp only
      have hbad : ((((colOf df c).map Prod.fst).zip
            ((colOf df c).map (fun x => (g x.2).getD true))).filter
              (fun x => !x.2)).map Prod.fst =
          maskOf df c (fun v => !((g v).getD true)) := by
        rw [List.zip_map' Prod.fst (fun x => (g x.2).getD true) (colOf df c)]
        rw [List.filter_map]
        rw [List.map_map]
        rfl
      rw [hbad]
      split
      · rename_i h0
        refine ⟨rfl, fun ℓ => ?_⟩
        simp only [List.not_mem_nil, false_iff]
        rintro ⟨rw, hrw, rfl, hbadv⟩
        exact absurd (maskOf_nil df c _ h0 rw hrw) (by simp [hbadv])
      · rename_i h0
        refine ⟨rfl, fun ℓ => ?_⟩
        rw [maskOf_mem]

theorem convert_dtype_none (df : DataFrame) (c : String) (rule : ColumnRule)
    (h : rule.dtype = none) : convert_dtype df c rule = (df, [], []) := by
  simp [convert_dtype, h]

theorem uniqueStage_skip (df : DataFrame) (c : String) (rule : ColumnRule)
    (h : rule.unique = false) : uniqueStage df c rule = .ok ([], []) := by
  simp [uniqueStage, h]

theorem mem_maskUnion (ℓ : Nat) (m m' : Mask) :
    ℓ ∈ maskUnion m m' ↔ ℓ ∈ m ∨ ℓ ∈ m' := by
  simp only [maskUnion, List.mem_append, List.mem_filter]
  constructor
  · rintro (h | ⟨h, _⟩)
    · exact Or.inl h
    · exact Or.inr h
  · intro h
    by_cases hm : ℓ ∈ m
    · exact Or.inl hm
    · rcases h with h | h
      · exact absurd h hm
      · exact Or.inr ⟨h, by simpa using hm⟩

theorem castA_null (rule : ColumnRule) : castA rule .null = .null := by
  unfold castA
  cases rule.allowed_values with
  | none => rfl
  | some av => by_cases hmem : Value.null ∈ av <;> simp [hmem]

/-- The post-cast cell of a mapped row. -/
theorem cellAt_set_castA (cols : List String) (c : String) (rule : ColumnRule)
    (r : List Value) :
    cellAt cols c (r.set (cols.findIdx (fun x => x = c)) (castA rule (cellAt cols c r))) =
      castA rule (cellAt cols c r) := by
  unfold cellAt
  rw [list_getD_set_self]
  split
  · rfl
  · rename_i hlen
    have : r.getD (cols.findIdx (fun x => x = c)) Value.null = Value.null :=
      List.getD_eq_default _ _ (by omega)
    rw [this, castA_null]

/-- The categorically-cast table, row-wise. -/
theorem colCast_rows (df : DataFrame) (c : String) (rule : ColumnRule) :
    (colCast df c rule).rows =
      df.rows.map (fun rw =>
        (rw.1, rw.2.set (colIdxOf df c) (castA rule (cellAt df.cols c rw.2)))) := by
  unfold colCast
  cases hav : rule.allowed_values with
  | none =>
    show df.rows = _
    symm
    have hid : ∀ rw ∈ df.rows,
        (fun rw : Nat × List Value =>
          (rw.1, rw.2.set (colIdxOf df c) (castA rule (cellAt df.cols c rw.2)))) rw =
          id rw := by
      intro rw _
      have hca : castA rule (cellAt df.cols c rw.2) = cellAt df.cols c rw.2 := by
        unfold castA; rw [hav]
      dsimp only
      rw [hca]
      show (rw.1, rw.2.set (colIdxOf df c) (rw.2.getD (colIdxOf df c) Value.null)) = rw
      rw [list_set_getD_self]
    exact (List.map_congr_left hid).trans (List.map_id df.rows)
  | some av =>
    unfold setColBy
    dsimp only
    refine List.map_congr_left (fun rw _ => ?_)
    unfold castA cellAt
    rw [hav]
    rfl

theorem colCast_cols (df : DataFrame) (c : String) (rule : ColumnRule) :
    (colCast df c rule).cols = df.cols := by
  unfold colCast
  cases rule.allowed_values <;> rfl

theorem cellAt_set_castA' (df : DataFrame) (c : String) (rule : ColumnRule)
    (r : List Value) :
    cellAt df.cols c (r.set (colIdxOf df c) (castA rule (cellAt df.cols c r))) =
      castA rule (cellAt df.cols c r) :=
  cellAt_set_castA df.cols c rule r

theorem apply_constraints_dropOnly (df : DataFrame) (c : String) (rule : ColumnRule)
    (hd : rule.drop_if_invalid = true) :
    (apply_constraints df c rule).1 = colCast df c rule ∧
    ∀ ℓ, (ℓ ∈ (apply_constraints df c rule).2.1 ↔
      ∃ rw ∈ df.rows, rw.1 = ℓ ∧
        ((match rule.min with
          | some m => vltBound (cellAt df.cols c rw.2) m
          | none => false) ||
         (match rule.max with
          | some m => vgtBound (cellAt df.cols c rw.2) m
          | none => false) ||
         (match rule.allowed_values with
          | some av => decide (cellAt df.cols c rw.2 ∉ av)
          | none => false)) = true) := by
  obtain ⟨hm1, hm2⟩ := minStage_dropOnly df c rule hd
  unfold apply_constraints
  dsimp only
  rw [hm1]
  obtain ⟨hx1, hx2⟩ := maxStage_dropOnly df c rule hd
  rw [hx1]
  obtain ⟨ha1, ha2⟩ := allowedStage_dropOnly df c rule hd
  refine ⟨ha1, fun ℓ => ?_⟩
  rw [mem_maskUnion, mem_maskUnion, hm2, hx2, ha2]
  constructor
  · rintro ((⟨rw, hrw, rfl, hb⟩ | ⟨rw, hrw, rfl, hb⟩) | ⟨rw, hrw, rfl, hb⟩) <;>
      refine ⟨rw, hrw, rfl, ?_⟩ <;> simp_all [Bool.or_eq_true]
  · rintro ⟨rw, hrw, rfl, hb⟩
    simp only [Bool.or_eq_true] at hb
    rcases hb with (hb | hb) | hb
    · exact Or.inl (Or.inl ⟨rw, hrw, rfl, hb⟩)
    · exact Or.inl (Or.inr ⟨rw, hrw, rfl, hb⟩)
    · exact Or.inr ⟨rw, hrw, rfl, hb⟩

theorem custom_colCast_mem (df : DataFrame) (c : String) (rule : ColumnRule)
    (hd : rule.drop_if_invalid = true) (hv : ValidatorTotal rule.custom_validator) (ℓ : Nat) :
    ℓ ∈ (apply_custom_validator (colCast df c rule) c rule).2.1 ↔
      ∃ rw ∈ df.rows, rw.1 = ℓ ∧
        customBad rule (castA rule (cellAt df.cols c rw.2)) = true := by
  obtain ⟨hcf, hcm⟩ := customStage_dropOnly (colCast df c rule) c rule hd hv
  rw [hcm ℓ]
  rw [show (colCast df c rule).rows =
      df.rows.map (fun rw =>
        (rw.1, rw.2.set (colIdxOf df c) (castA rule (cellAt df.cols c rw.2)))) from
    colCast_rows df c rule]
  simp only [colCast_cols]
  constructor
  · rintro ⟨rw', hmem, h1, h2⟩
    rw [List.mem_map] at hmem
    obtain ⟨rw, hrw, rfl⟩ := hmem
    dsimp only at h1 h2
    rw [cellAt_set_castA'] at h2
    exact ⟨rw, hrw, h1, h2⟩
  · rintro ⟨rw, hrw, h1, h2⟩
    refine ⟨(rw.1, rw.2.set (colIdxOf df c) (castA rule (cellAt df.cols c rw.2))),
      List.mem_map.mpr ⟨rw, hrw, rfl⟩, h1, ?_⟩
    dsimp only
    rwa [cellAt_set_castA']

theorem colBadP_eq_true (rule : ColumnRule) (v : Value) :
    colBadP rule v = true ↔
      ((!rule.allow_null && v.isNull) = true ∨
       (match rule.regex with
        | some (.compiled ts) => !reMatch ts (strOfVal v)
        | _ => false) = true ∨
       (match rule.min with | some m => vltBound v m | none => false) = true ∨
       (match rule.max with | some m => vgtBound v m | none => false) = true ∨
       (match rule.allowed_values with
        | some av => decide (v ∉ av)
        | none => false) = true ∨
       customBad rule (castA rule v) = true) := by
  simp only [colBadP, Bool.or_eq_true]
  tauto

/-- The whole of `validate_column` under a drop-only rule: the table gets
only the categorical cast, and the drop mask flags exactly the labels of
rows failing the rule's per-value predicate. -/
theorem validate_column_dropOnly (df : DataFrame) (c : String) (rule : ColumnRule)
    (hr : RuleDropOnly rule) :
    (validate_column df c rule).1 = colCast df c rule ∧
    ∀ ℓ, (ℓ ∈ (validate_column df c rule).2.1 ↔
      ∃ rw ∈ df.rows, rw.1 = ℓ ∧ colBadP rule (cellAt df.cols c rw.2) = true) := by
  obtain ⟨hd, hu, hdt, hv⟩ := hr
  obtain ⟨hn1, hn2⟩ := nullStage_dropOnly df c rule hd
  obtain ⟨hg1, hg2⟩ := regexStage_dropOnly df c rule hd
  have hcv := convert_dtype_none df c rule hdt
  obtain ⟨hc1, hc2⟩ := apply_constraints_dropOnly df c rule hd
  obtain ⟨hm1, _⟩ := customStage_dropOnly (colCast df c rule) c rule hd hv
  have hmm := custom_colCast_mem df c rule hd hv
  unfold validate_column validateColumnBody
  dsimp only
  rw [hn1, hg1, hcv]
  dsimp only
  rw [hc1, hm1, uniqueStage_skip (colCast df c rule) c rule hu]
  dsimp only
  refine ⟨rfl, fun ℓ => ?_⟩
  rw [mem_maskUnion, mem_maskUnion, mem_maskUnion, mem_maskUnion, mem_maskUnion,
    hn2 ℓ, hg2 ℓ, hc2 ℓ, hmm ℓ]
  constructor
  · rintro (((((⟨rw, hrw, rfl, hb⟩ | ⟨rw, hrw, rfl, hb⟩) | hfalse) |
        ⟨rw, hrw, rfl, hb⟩) | ⟨rw, hrw, rfl, hb⟩) | hfalse)
    · refine ⟨rw, hrw, rfl, ?_⟩
      rw [colBadP_eq_true]
      tauto
    · refine ⟨rw, hrw, rfl, ?_⟩
      rw [colBadP_eq_true]
      tauto
    · simp at hfalse
    · refine ⟨rw, hrw, rfl, ?_⟩
      rw [colBadP_eq_true]
      simp only [Bool.or_eq_true] at hb
      tauto
    · refine ⟨rw, hrw, rfl, ?_⟩
      rw [colBadP_eq_true]
      tauto
    · simp at hfalse
  · rintro ⟨rw, hrw, rfl, hbad⟩
    rw [colBadP_eq_true] at hbad
    rcases hbad with hb | hb | hb | hb | hb | hb
    · exact Or.inl (Or.inl (Or.inl (Or.inl (Or.inl ⟨rw, hrw, rfl, hb⟩))))
    · exact Or.inl (Or.inl (Or.inl (Or.inl (Or.inr ⟨rw, hrw, rfl, hb⟩))))
    · refine Or.inl (Or.inl (Or.inr ⟨rw, hrw, rfl, ?_⟩))
      simp only [Bool.or_eq_true]
      tauto
    · refine Or.inl (Or.inl (Or.inr ⟨rw, hrw, rfl, ?_⟩))
      simp only [Bool.or_eq_true]
      tauto
    · refine Or.inl (Or.inl (Or.inr ⟨rw, hrw, rfl, ?_⟩))
      simp only [Bool.or_eq_true]
      tauto
    · exact Or.inl (Or.inr ⟨rw, hrw, rfl, hb⟩)

theorem castA_id_of_not_bad (rule : ColumnRule) (v : Value)
    (h : colBadP rule v = false) : castA rule v = v := by
  unfold castA
  cases hav : rule.allowed_values with
  | none => rfl
  | some av =>
    have hnb : decide (v ∉ av) = false := by
      by_contra hc
      have hdd : decide (v ∉ av) = true := by simpa using hc
      have hbad : colBadP rule v = true := by
        rw [colBadP_eq_true]
        refine Or.inr (Or.inr (Or.inr (Or.inr (Or.inl ?_))))
        rw [hav]
        exact hdd
      simp [hbad] at h
    have hv : v ∈ av := by simpa using hnb
    simp [hv]

/-- One drop-only columnStep followed by a row-skeleton invariant: the
fold's output rows pair with the input rows label-for-label, unflagged
rows keep their cells, unflagged rows pass every declared rule, and the
accumulated mask only grows. -/
theorem columnPhase_dropOnly :
    ∀ (rules : List (String × ColumnRule)) (st : DataFrame × Mask × List String),
      (∀ p ∈ rules, RuleDropOnly p.2) →
      List.Forall₂ (fun rw rw' => rw.1 = rw'.1 ∧
          (rw'.1 ∉ (rules.foldl columnStep st).2.1 → rw'.2 = rw.2))
        st.1.rows (rules.foldl columnStep st).1.rows ∧
      (∀ rw ∈ st.1.rows, rw.1 ∉ (rules.foldl columnStep st).2.1 →
        ∀ cr ∈ rules, cr.1 ∈ st.1.cols →
          colBadP cr.2 (cellAt st.1.cols cr.1 rw.2) = false) ∧
      (∀ ℓ ∈ st.2.1, ℓ ∈ (rules.foldl columnStep st).2.1) := by
  intro rules
  induction rules with
  | nil =>
    intro st _
    refine ⟨forall₂_self _ _ (fun rw _ => ⟨rfl, fun _ => rfl⟩), ?_, fun ℓ h => h⟩
    intro rw _ _ cr hcr
    simp at hcr
  | cons cr rest ih =>
    intro st hall
    have hrCr := hall cr (by simp)
    have hrest : ∀ p ∈ rest, RuleDropOnly p.2 := fun p hp => hall p (by simp [hp])
    rw [List.foldl_cons]
    by_cases hmem : cr.1 ∈ st.1.cols
    · obtain ⟨hvf, hvm⟩ := validate_column_dropOnly st.1 cr.1 cr.2 hrCr
      have hstep : columnStep st cr =
          ((validate_column st.1 cr.1 cr.2).1,
           maskUnion st.2.1 (validate_column st.1 cr.1 cr.2).2.1,
           st.2.2 ++ (validate_column st.1 cr.1 cr.2).2.2) := by
        unfold columnStep
        rw [if_pos hmem]
      obtain ⟨ihA, ihB, ihC⟩ := ih (columnStep st cr) hrest
      have hcols1 : (columnStep st cr).1.cols = st.1.cols := by
        rw [hstep, hvf, colCast_cols]
      have hrows1 : (columnStep st cr).1.rows =
          st.1.rows.map (fun rw =>
            (rw.1, rw.2.set (colIdxOf st.1 cr.1)
              (castA cr.2 (cellAt st.1.cols cr.1 rw.2)))) := by
        rw [hstep, hvf, colCast_rows]
      have hm1 : ∀ ℓ, ℓ ∈ (columnStep st cr).2.1 ↔
          (ℓ ∈ st.2.1 ∨ ∃ rw ∈ st.1.rows, rw.1 = ℓ ∧
            colBadP cr.2 (cellAt st.1.cols cr.1 rw.2) = true) := by
        intro ℓ
        rw [hstep]
        show ℓ ∈ maskUnion st.2.1 (validate_column st.1 cr.1 cr.2).2.1 ↔ _
        rw [mem_maskUnion, hvm ℓ]
      -- an unflagged row is untouched by this column's cast and passes it
      have hkey : ∀ rw ∈ st.1.rows,
          rw.1 ∉ (rest.foldl columnStep (columnStep st cr)).2.1 →
          colBadP cr.2 (cellAt st.1.cols cr.1 rw.2) = false ∧
          (rw.1, rw.2.set (colIdxOf st.1 cr.1)
            (castA cr.2 (cellAt st.1.cols cr.1 rw.2))) = rw := by
        intro rw hrw hout
        have hnotin : rw.1 ∉ (columnStep st cr).2.1 := fun hin => hout (ihC rw.1 hin)
        have hpass : colBadP cr.2 (cellAt st.1.cols cr.1 rw.2) = false := by
          by_contra hc
          exact hnotin ((hm1 rw.1).mpr (Or.inr ⟨rw, hrw, rfl, by simpa using hc⟩))
        refine ⟨hpass, ?_⟩
        rw [castA_id_of_not_bad cr.2 _ hpass]
        show (rw.1, rw.2.set (colIdxOf st.1 cr.1)
          (rw.2.getD (colIdxOf st.1 cr.1) Value.null)) = rw
        rw [list_set_getD_self]
      refine ⟨?_, ?_, ?_⟩
      · -- Forall₂ composition through the cast map
        have hfst : List.Forall₂ (fun rw rw' => rw.1 = rw'.1 ∧
            (rw'.1 ∉ (rest.foldl columnStep (columnStep st cr)).2.1 → rw'.2 = rw.2))
            st.1.rows (columnStep st cr).1.rows := by
          rw [hrows1]
          refine forall₂_map_self _ _ _ (fun rw hrw => ⟨rfl, fun hout => ?_⟩)
          have := (hkey rw hrw (by simpa using hout)).2
          exact congrArg Prod.snd this
        exact forall₂_compose (fun a b c hab hbc =>
          ⟨hab.1.trans hbc.1, fun hout =>
            (hbc.2 hout).trans (hab.2 (by rw [hbc.1]; exact hout))⟩) hfst ihA
      · intro rw hrw hout cr' hcr' hcols
        rcases List.mem_cons.mp hcr' with rfl | hcr'
        · exact (hkey rw hrw hout).1
        · -- transported from the tail's invariant
          have hgmem : (rw.1, rw.2.set (colIdxOf st.1 cr.1)
              (castA cr.2 (cellAt st.1.cols cr.1 rw.2))) ∈ (columnStep st cr).1.rows := by
            rw [hrows1]
            exact List.mem_map.mpr ⟨rw, hrw, rfl⟩
          have heqrw := (hkey rw hrw hout).2
          rw [heqrw] at hgmem
          have := ihB rw hgmem (by simpa using hout) cr' hcr' (by rw [hcols1]; exact hcols)
          rwa [hcols1] at this
      · intro ℓ hℓ
        exact ihC ℓ ((hm1 ℓ).mpr (Or.inl hℓ))
    · have hstep : columnStep st cr =
          (st.1, st.2.1, st.2.2 ++ [s!"Column '{cr.1}' is missing from DataFrame."]) := by
        unfold columnStep
        rw [if_neg hmem]
      have h1 : (columnStep st cr).1 = st.1 := by rw [hstep]
      have h2 : (columnStep st cr).2.1 = st.2.1 := by rw [hstep]
      obtain ⟨ihA, ihB, ihC⟩ := ih (columnStep st cr) hrest
      rw [h1] at ihA ihB
      rw [h2] at ihC
      refine ⟨ihA, ?_, ihC⟩
      intro rw hrw hout cr' hcr' hcols
      rcases List.mem_cons.mp hcr' with rfl | hcr'
      · exact absurd hcols hmem
      · exact ihB rw hrw hout cr' hcr' hcols

/-- A cross-validation check with total expressions either leaves the table
unchanged with every row vacuously passing it, or is a row-dropping
comparison (resp. conditional) whose output table keeps exactly the passing
rows. -/
theorem crossCheckStep_cases (df : DataFrame) (ck : CrossCheck) (hck : CheckTotal ck) :
    ((crossCheckStep df ck).1 = df ∧ ∀ r, CheckPasses df.cols ck r) ∨
    (ck.ctype = some "comparison" ∧ ck.action.getD "warn" = "drop" ∧
      ∃ e, ck.condition = some e ∧
        (crossCheckStep df ck).1 =
          { df with rows := df.rows.filter (fun rw => (e.fn df.cols rw.2).getD false) }) ∨
    (ck.ctype = some "conditional" ∧ ck.action.getD "warn" = "drop" ∧
      ∃ ie te, ck.ifExpr = some ie ∧ ck.thenExpr = some te ∧
        (crossCheckStep df ck).1 =
          { df with rows := df.rows.filter (fun rw =>
            !((ie.fn df.cols rw.2).getD false && !((te.fn df.cols rw.2).getD false))) }) := by
  obtain ⟨hc, hi, ht⟩ := hck
  by_cases h1 : ck.ctype = some "comparison"
  · cases hcond : ck.condition with
    | none =>
      refine Or.inl ⟨?_, ?_⟩
      · unfold crossCheckStep crossCheckBody
        simp [h1, hcond, bind, Except.bind, getField]
      · intro r
        refine ⟨?_, ?_⟩
        · intro _ _ e he
          rw [hcond] at he
          cases he
        · intro h2
          have hx := h1.symm.trans h2
          simp at hx
    | some e =>
      rw [hcond] at hc
      have he : RowExprTotal e := hc
      by_cases hact : ck.action.getD "warn" = "drop"
      · refine Or.inr (Or.inl ⟨h1, hact, e, rfl, ?_⟩)
        unfold crossCheckStep crossCheckBody
        simp [h1, hcond, hact, bind, Except.bind, pure, Except.pure, getField,
          evalRowMask_total e df he]
        split <;> rename_i hsp
        · split at hsp <;> rename_i hbr <;> cases hsp
          · show ({ cols := df.cols, rows := _ } : DataFrame) = _
            congr 1
            exact zip_filter_snd _ df.rows
          · show df = _
            have hall : ∀ rw ∈ df.rows, (e.fn df.cols rw.2).getD false = true := by
              intro rw hrw
              by_contra hfalse
              have hf : (e.fn df.cols rw.2).getD false = false := by simpa using hfalse
              refine hbr (List.any_eq_true.mpr ⟨!(e.fn df.cols rw.2).getD false, ?_, ?_⟩)
              · exact List.mem_map.mpr
                  ⟨(e.fn df.cols rw.2).getD false, List.mem_map.mpr ⟨rw, hrw, rfl⟩, rfl⟩
              · simp [hf]
            rw [List.filter_eq_self.mpr hall]
        · split at hsp <;> simp at hsp
      · refine Or.inl ⟨?_, ?_⟩
        · unfold crossCheckStep crossCheckBody
          simp [h1, hcond, hact, bind, Except.bind, pure, Except.pure, getField,
            evalRowMask_total e df he]
          split <;> rename_i hsp <;> split at hsp <;> cases hsp <;> rfl
        · intro r
          refine ⟨fun _ ha _ _ => absurd ha hact, ?_⟩
          intro h2
          have hx := h1.symm.trans h2
          simp at hx
  · by_cases h2 : ck.ctype = some "aggregate"
    · have hdfeq : (crossCheckStep df ck).1 = df := by
        unfold crossCheckStep crossCheckBody
        cases hag : ck.aggCheck with
        | none => simp [h1, h2, hag, bind, Except.bind, getField]
        | some ag =>
          cases hfn : ag.fn df with
          | none => simp [h1, h2, hag, hfn, bind, Except.bind, pure, Except.pure, getField]
          | some b =>
            simp [h1, h2, hag, hfn, bind, Except.bind, pure, Except.pure, getField]
            cases b with
            | true => simp
            | false =>
              simp
              split <;> rename_i hsp <;> split at hsp <;> cases hsp <;> rfl
      refine Or.inl ⟨hdfeq, ?_⟩
      intro r
      constructor
      · intro hx
        have := h2.symm.trans hx
        simp at this
      · intro hx
        have := h2.symm.trans hx
        simp at this
    · by_cases h3 : ck.ctype = some "conditional"
      · cases hcif : ck.ifExpr with
        | none =>
          refine Or.inl ⟨?_, ?_⟩
          · unfold crossCheckStep crossCheckBody
            simp [h1, h2, h3, hcif, bind, Except.bind, getField]
          · intro r
            refine ⟨?_, ?_⟩
            · intro hx
              have := h3.symm.trans hx
              simp at this
            · intro _ _ ie _ hie _
              rw [hcif] at hie
              cases hie
        | some ie =>
          cases hcth : ck.thenExpr with
          | none =>
            refine Or.inl ⟨?_, ?_⟩
            · unfold crossCheckStep crossCheckBody
              simp [h1, h2, h3, hcif, hcth, bind, Except.bind, getField]
            · intro r
              refine ⟨?_, ?_⟩
              · intro hx
                have := h3.symm.trans hx
                simp at this
              · intro _ _ _ te _ hte
                rw [hcth] at hte
                cases hte
          | some te =>
            rw [hcif] at hi
            rw [hcth] at ht
            have hie : RowExprTotal ie := hi
            have hte : RowExprTotal te := ht
            by_cases hact : ck.action.getD "warn" = "drop"
            · refine Or.inr (Or.inr ⟨h3, hact, ie, te, rfl, rfl, ?_⟩)
              unfold crossCheckStep crossCheckBody
              simp [h1, h2, h3, hcif, hcth, hact, bind, Except.bind, pure, Except.pure,
                getField, evalRowMask_total ie df hie, evalRowMask_total te df hte]
              rw [zipWith_map_same (fun a b => a && !b)]
              split <;> rename_i hsp
              · split at hsp <;> rename_i hbr <;> cases hsp
                · show ({ cols := df.cols, rows := _ } : DataFrame) = _
                  congr 1
                  rw [zip_filter_not_snd
                    (fun a => (ie.fn df.cols a.2).getD false &&
                      !((te.fn df.cols a.2).getD false)) df.rows]
                  refine List.filter_congr ?_
                  intro rw _
                  cases (ie.fn df.cols rw.2).getD false <;>
                    cases (te.fn df.cols rw.2).getD false <;> rfl
                · show df = _
                  have hall : ∀ rw ∈ df.rows,
                      (!(ie.fn df.cols rw.2).getD false ||
                        (te.fn df.cols rw.2).getD false) = true := by
                    intro rw hrw
                    by_contra hfalse
                    have hq : ((ie.fn df.cols rw.2).getD false &&
                        !((te.fn df.cols rw.2).getD false)) = true := by
                      cases ha : (ie.fn df.cols rw.2).getD false <;>
                        cases hb : (te.fn df.cols rw.2).getD false <;>
                          simp [ha, hb] at hfalse ⊢
                    refine hbr (List.any_eq_true.mpr
                      ⟨(ie.fn df.cols rw.2).getD false &&
                        !((te.fn df.cols rw.2).getD false), ?_, hq⟩)
                    exact List.mem_map.mpr ⟨rw, hrw, rfl⟩
                  rw [List.filter_eq_self.mpr hall]
              · split at hsp <;> simp at hsp
            · refine Or.inl ⟨?_, ?_⟩
              · unfold crossCheckStep crossCheckBody
                simp [h1, h2, h3, hcif, hcth, hact, bind, Except.bind, pure, Except.pure,
                  getField, evalRowMask_total ie df hie, evalRowMask_total te df hte]
                split <;> rename_i hsp <;> split at hsp <;> cases hsp <;> rfl
              · intro r
                refine ⟨?_, fun _ ha _ _ _ _ => absurd ha hact⟩
                intro hx
                have := h3.symm.trans hx
                simp at this
      · refine Or.inl ⟨?_, ?_⟩
        · unfold crossCheckStep crossCheckBody
          simp [h1, h2, h3, pure, Except.pure]
        · intro r
          refine ⟨?_, ?_⟩
          · intro hx
            exact absurd hx h1
          · intro hx
            exact absurd hx h3

/-- One total cross-validation check: columns preserved, rows only removed,
every surviving row passes the check, and a table of all-passing rows is
returned unchanged. -/
theorem crossCheckStep_char (df : DataFrame) (ck : CrossCheck) (hck : CheckTotal ck) :
    (crossCheckStep df ck).1.cols = df.cols ∧
    (crossCheckStep df ck).1.rows.Sublist df.rows ∧
    (∀ rw ∈ (crossCheckStep df ck).1.rows, CheckPasses df.cols ck rw.2) ∧
    ((∀ rw ∈ df.rows, CheckPasses df.cols ck rw.2) → (crossCheckStep df ck).1 = df) := by
  rcases crossCheckStep_cases df ck hck with ⟨heq, hall⟩ |
    ⟨hty, hact, e, hcond, heq⟩ | ⟨hty, hact, ie, te, hcif, hcth, heq⟩
  · rw [heq]
    exact ⟨rfl, List.Sublist.refl _, fun rw _ => hall rw.2, fun _ => rfl⟩
  · rw [heq]
    refine ⟨rfl, List.filter_sublist _, ?_, ?_⟩
    · intro rw hrw
      have hp := (List.mem_filter.mp hrw).2
      refine ⟨fun _ _ e' he' => ?_, fun hcontra => ?_⟩
      · rw [hcond] at he'
        cases he'
        exact hp
      · have hx := hty.symm.trans hcontra
        simp at hx
    · intro hP
      have hfl : df.rows.filter (fun rw => (e.fn df.cols rw.2).getD false) = df.rows :=
        List.filter_eq_self.mpr (fun rw hrw => (hP rw hrw).1 hty hact e hcond)
      rw [hfl]
  · rw [heq]
    refine ⟨rfl, List.filter_sublist _, ?_, ?_⟩
    · intro rw hrw
      have hp := (List.mem_filter.mp hrw).2
      refine ⟨fun hcontra => ?_, fun _ _ ie' te' hie' hte' => ?_⟩
      · have hx := hty.symm.trans hcontra
        simp at hx
      · rw [hcif] at hie'
        rw [hcth] at hte'
        cases hie'
        cases hte'
        exact hp
    · intro hP
      have hfl : df.rows.filter (fun rw =>
          !((ie.fn df.cols rw.2).getD false && !((te.fn df.cols rw.2).getD false))) =
          df.rows :=
        List.filter_eq_self.mpr (fun rw hrw => (hP rw hrw).2 hty hact ie te hcif hcth)
      rw [hfl]

/-- The table component of the cross-validation fold ignores the report
accumulator. -/
theorem crossFold_fst :
    ∀ (cks : List CrossCheck) (df : DataFrame) (rep : List String),
      (cks.foldl (fun st ck =>
          let (d, r) := crossCheckStep st.1 ck
          (d, st.2 ++ r)) (df, rep)).1 =
        cks.foldl (fun d ck => (crossCheckStep d ck).1) df := by
  intro cks
  induction cks with
  | nil => intro df rep; rfl
  | cons ck cks ih =>
    intro df rep
    rw [List.foldl_cons, List.foldl_cons]
    rcases hs : crossCheckStep df ck with ⟨d, r⟩
    simp only [hs]
    exact ih d (rep ++ r)

/-- The cross-validation loop over total checks: columns preserved, rows
only removed, survivors pass every check, and a table all of whose rows
pass every check comes back unchanged. -/
theorem crossFoldT_char :
    ∀ (cks : List CrossCheck) (df : DataFrame), (∀ ck ∈ cks, CheckTotal ck) →
      (cks.foldl (fun d ck => (crossCheckStep d ck).1) df).cols = df.cols ∧
      (cks.foldl (fun d ck => (crossCheckStep d ck).1) df).rows.Sublist df.rows ∧
      (∀ rw ∈ (cks.foldl (fun d ck => (crossCheckStep d ck).1) df).rows,
        ∀ ck ∈ cks, CheckPasses df.cols ck rw.2) ∧
      ((∀ rw ∈ df.rows, ∀ ck ∈ cks, CheckPasses df.cols ck rw.2) →
        cks.foldl (fun d ck => (crossCheckStep d ck).1) df = df) := by
  intro cks
  induction cks with
  | nil =>
    intro df _
    exact ⟨rfl, List.Sublist.refl _, by simp, fun _ => rfl⟩
  | cons ck cks ih =>
    intro df hall
    have hck := hall ck (by simp)
    have hrest : ∀ c ∈ cks, CheckTotal c := fun c hc => hall c (by simp [hc])
    obtain ⟨sc, ss, sp, si⟩ := crossCheckStep_char df ck hck
    obtain ⟨ic, is, ip, ii⟩ := ih (crossCheckStep df ck).1 hrest
    rw [List.foldl_cons]
    refine ⟨ic.trans sc, is.trans ss, ?_, ?_⟩
    · intro rw hrw c hc
      rcases List.mem_cons.mp hc with rfl | hc
      · exact sp rw (is.subset hrw)
      · have := ip rw hrw c hc
        rwa [sc] at this
    · intro hP
      have h1 : (crossCheckStep df ck).1 = df :=
        si (fun rw hrw => hP rw hrw ck (by simp))
      have h2 := ii (by
        rw [h1]
        intro rw hrw c hc
        exact hP rw hrw c (by simp [hc]))
      rw [h1] at h2
      rw [h1]
      exact h2

/-- `drop_duplicates`: columns preserved, rows only removed, afterwards the
kept row values are pairwise distinct, and a table of distinct rows is
returned unchanged. -/
theorem dedupStage_char (df : DataFrame) (dr : DataFrameRule) :
    (dedupStage df dr).1.cols = df.cols ∧
    (dedupStage df dr).1.rows.Sublist df.rows ∧
    (dr.no_duplicates = true → ((dedupStage df dr).1.rows.map Prod.snd).Nodup) ∧
    ((dr.no_duplicates = true → (df.rows.map Prod.snd).Nodup) →
      (dedupStage df dr).1 = df) := by
  by_cases hnd : dr.no_duplicates = true
  · by_cases hdup : 0 < df.rows.length - (dedupOn Prod.snd df.rows).length
    · have he : (dedupStage df dr).1 = { df with rows := dedupOn Prod.snd df.rows } := by
        unfold dedupStage
        rw [if_pos hnd]
        dsimp only
        rw [if_pos hdup]
      rw [he]
      refine ⟨rfl, dedupOn_sublist _ _, fun _ => dedupOn_keys_nodup _ _, fun h => ?_⟩
      exact absurd hdup (by rw [dedupOn_of_nodup _ _ (h hnd)]; simp)
    · have hlen : (dedupOn Prod.snd df.rows).length = df.rows.length := by
        have hle := (dedupOn_sublist Prod.snd df.rows).length_le
        omega
      have hkept : dedupOn Prod.snd df.rows = df.rows :=
        (dedupOn_sublist Prod.snd df.rows).eq_of_length hlen
      have he : (dedupStage df dr).1 = df := by
        unfold dedupStage
        rw [if_pos hnd]
        dsimp only
        rw [if_neg hdup]
      rw [he]
      refine ⟨rfl, List.Sublist.refl _, fun _ => ?_, fun _ => rfl⟩
      rw [← hkept]
      exact dedupOn_keys_nodup _ _
  · have he : (dedupStage df dr).1 = df := by
      unfold dedupStage
      rw [if_neg hnd]
    rw [he]
    exact ⟨rfl, List.Sublist.refl _, fun h => absurd h hnd, fun _ => rfl⟩

/-- `unique_keys` on a table whose named key columns all exist never
raises. -/
theorem uniqueKeysMsgs_ok (df : DataFrame) (dr : DataFrameRule) (huk : UkOK dr df.cols) :
    ∃ msgs, uniqueKeysMsgs df dr = .ok msgs := by
  unfold UkOK at huk
  cases hk : dr.unique_keys with
  | none => exact ⟨[], by unfold uniqueKeysMsgs; rw [hk]⟩
  | some keys =>
    rw [hk] at huk
    unfold uniqueKeysMsgs
    rw [hk]
    dsimp only
    by_cases hemp : keys.isEmpty = true
    · rw [if_pos hemp]
      exact ⟨[], rfl⟩
    · rcases huk with hemp' | hall
      · exact absurd hemp' hemp
      · rw [if_neg hemp, if_pos hall]
        split
        · exact ⟨_, rfl⟩
        · exact ⟨[], rfl⟩

/-- `validate_dataframe` with total cross-checks and a satisfiable
unique-keys rule: columns preserved, rows only removed, deduplication
leaves pairwise-distinct row values, survivors pass every cross-check, and
an already-clean table comes back with its rows unchanged. -/
theorem validate_dataframe_char (df : DataFrame) (dr : DataFrameRule)
    (hdt : ∀ ck ∈ cksOf dr, CheckTotal ck) (huk : UkOK dr df.cols) :
    (validate_dataframe df dr).1.cols = df.cols ∧
    (validate_dataframe df dr).1.rows.Sublist df.rows ∧
    (∀ rw ∈ (validate_dataframe df dr).1.rows, ∀ ck ∈ cksOf dr,
      CheckPasses df.cols ck rw.2) ∧
    (dr.no_duplicates = true → ((validate_dataframe df dr).1.rows.map Prod.snd).Nodup) ∧
    ((dr.no_duplicates = true → (df.rows.map Prod.snd).Nodup) →
      (∀ rw ∈ df.rows, ∀ ck ∈ cksOf dr, CheckPasses df.cols ck rw.2) →
      (validate_dataframe df dr).1 = df) := by
  obtain ⟨dc, ds, dn, di⟩ := dedupStage_char df dr
  have huk1 : UkOK dr (dedupStage df dr).1.cols := by rwa [dc]
  obtain ⟨msgs, hmsgs⟩ := uniqueKeysMsgs_ok (dedupStage df dr).1 dr huk1
  rcases hd : dedupStage df dr with ⟨d1, r1⟩
  have hd1 : (dedupStage df dr).1 = d1 := by rw [hd]
  rw [hd1] at dc ds dn di hmsgs
  unfold validate_dataframe validateDataframeBody
  rw [hd]
  dsimp only
  rw [hmsgs]
  dsimp only
  cases hcv : dr.cross_validations with
  | none =>
    dsimp only
    have hck : cksOf dr = [] := by simp [cksOf, hcv]
    rw [hck]
    refine ⟨dc, ds, by simp, dn, fun h _ => di h⟩
  | some cks =>
    have hck : cksOf dr = cks := by simp [cksOf, hcv]
    rw [hck] at hdt ⊢
    dsimp only
    by_cases hemp : cks.isEmpty = true
    · rw [if_pos hemp]
      have hcknil : cks = [] := List.isEmpty_iff.mp hemp
      subst hcknil
      refine ⟨dc, ds, by simp, dn, fun h _ => di h⟩
    · rw [if_neg hemp]
      have hfold : (crossFold d1 cks).1 =
          cks.foldl (fun d ck => (crossCheckStep d ck).1) d1 := by
        unfold crossFold
        exact crossFold_fst cks d1 []
      obtain ⟨fc, fs, fp, fi⟩ := crossFoldT_char cks d1 hdt
      rcases hcf : crossFold d1 cks with ⟨d2, r4⟩
      have hd2 : d2 = cks.foldl (fun d ck => (crossCheckStep d ck).1) d1 := by
        rw [← hfold, hcf]
      rw [← hd2] at fc fs fp fi
      dsimp only
      refine ⟨fc.trans dc, fs.trans ds, ?_, ?_, ?_⟩
      · intro rw hrw ck hckm
        have := fp rw hrw ck hckm
        rwa [dc] at this
      · intro h
        exact (dn h).sublist (fs.map Prod.snd)
      · intro h hP
        have hdf1 : d1 = df := di h
        have : d2 = d1 := fi (by rw [hdf1]; exact hP)
        rw [this, hdf1]

/-- Drop-only column rules never change the column list. -/
theorem columnPhase_cols :
    ∀ (rules : List (String × ColumnRule)) (st : DataFrame × Mask × List String),
      (∀ p ∈ rules, RuleDropOnly p.2) →
      (rules.foldl columnStep st).1.cols = st.1.cols := by
  intro rules
  induction rules with
  | nil => intro st _; rfl
  | cons cr rest ih =>
    intro st hall
    rw [List.foldl_cons]
    have h := ih (columnStep st cr) (fun p hp => hall p (by simp [hp]))
    rw [h]
    by_cases hmem : cr.1 ∈ st.1.cols
    · obtain ⟨hvf, _⟩ := validate_column_dropOnly st.1 cr.1 cr.2 (hall cr (by simp))
      have hstep : columnStep st cr =
          ((validate_column st.1 cr.1 cr.2).1,
           maskUnion st.2.1 (validate_column st.1 cr.1 cr.2).2.1,
           st.2.2 ++ (validate_column st.1 cr.1 cr.2).2.2) := by
        unfold columnStep
        rw [if_pos hmem]
      rw [hstep]
      dsimp only
      rw [hvf, colCast_cols]
    · have hstep : columnStep st cr =
          (st.1, st.2.1, st.2.2 ++ [s!"Column '{cr.1}' is missing from DataFrame."]) := by
        unfold columnStep
        rw [if_neg hmem]
      rw [hstep]

/-- On a table whose every row already passes every drop-only rule, the
per-column phase flags nothing and rewrites nothing. -/
theorem columnPhase_mask_empty :
    ∀ (rules : List (String × ColumnRule)) (st : DataFrame × Mask × List String),
      (∀ p ∈ rules, RuleDropOnly p.2) →
      st.2.1 = [] →
      (∀ rw ∈ st.1.rows, AllPass rules st.1.cols rw.2) →
      (rules.foldl columnStep st).1.rows = st.1.rows ∧
      (rules.foldl columnStep st).1.cols = st.1.cols ∧
      (rules.foldl columnStep st).2.1 = [] := by
  intro rules
  induction rules with
  | nil => intro st _ hm _; exact ⟨rfl, rfl, hm⟩
  | cons cr rest ih =>
    intro st hall hm hpass
    rw [List.foldl_cons]
    have hrCr := hall cr (by simp)
    have hrest : ∀ p ∈ rest, RuleDropOnly p.2 := fun p hp => hall p (by simp [hp])
    by_cases hmem : cr.1 ∈ st.1.cols
    · obtain ⟨hvf, hvm⟩ := validate_column_dropOnly st.1 cr.1 cr.2 hrCr
      have hstep : columnStep st cr =
          ((validate_column st.1 cr.1 cr.2).1,
           maskUnion st.2.1 (validate_column st.1 cr.1 cr.2).2.1,
           st.2.2 ++ (validate_column st.1 cr.1 cr.2).2.2) := by
        unfold columnStep
        rw [if_pos hmem]
      have hpassHead : ∀ rw ∈ st.1.rows,
          colBadP cr.2 (cellAt st.1.cols cr.1 rw.2) = false :=
        fun rw hrw => hpass rw hrw cr (by simp) hmem
      have hm1 : (validate_column st.1 cr.1 cr.2).2.1 = [] := by
        rw [List.eq_nil_iff_forall_not_mem]
        intro ℓ hℓ
        obtain ⟨rw, hrw, _, hbad⟩ := (hvm ℓ).mp hℓ
        rw [hpassHead rw hrw] at hbad
        cases hbad
      have hrows1 : (validate_column st.1 cr.1 cr.2).1.rows = st.1.rows := by
        rw [hvf, colCast_rows]
        have hid : ∀ rw ∈ st.1.rows,
            (rw.1, rw.2.set (colIdxOf st.1 cr.1)
              (castA cr.2 (cellAt st.1.cols cr.1 rw.2))) = rw := by
          intro rw hrw
          rw [castA_id_of_not_bad cr.2 _ (hpassHead rw hrw)]
          show (rw.1, rw.2.set (colIdxOf st.1 cr.1)
            (rw.2.getD (colIdxOf st.1 cr.1) Value.null)) = rw
          rw [list_set_getD_self]
        calc st.1.rows.map _ = st.1.rows.map id := List.map_congr_left hid
          _ = st.1.rows := List.map_id _
      have hcols1 : (validate_column st.1 cr.1 cr.2).1.cols = st.1.cols := by
        rw [hvf, colCast_cols]
      have hmk : (columnStep st cr).2.1 = [] := by
        rw [hstep]
        show maskUnion st.2.1 (validate_column st.1 cr.1 cr.2).2.1 = []
        rw [hm, hm1]
        rfl
      have hrk : (columnStep st cr).1.rows = st.1.rows := by
        rw [hstep]
        exact hrows1
      have hck : (columnStep st cr).1.cols = st.1.cols := by
        rw [hstep]
        exact hcols1
      obtain ⟨i1, i2, i3⟩ := ih (columnStep st cr) hrest hmk (by
        intro rw hrw cr' hcr' hcl
        rw [hrk] at hrw
        rw [hck] at hcl ⊢
        exact hpass rw hrw cr' (by simp [hcr']) hcl)
      exact ⟨i1.trans hrk, i2.trans hck, i3⟩
    · have hstep : columnStep st cr =
          (st.1, st.2.1, st.2.2 ++ [s!"Column '{cr.1}' is missing from DataFrame."]) := by
        unfold columnStep
        rw [if_neg hmem]
      have h1 : (columnStep st cr).1 = st.1 := by rw [hstep]
      have h2 : (columnStep st cr).2.1 = st.2.1 := by rw [hstep]
      obtain ⟨i1, i2, i3⟩ := ih (columnStep st cr) hrest (by rw [h2]; exact hm) (by
        intro rw hrw cr' hcr' hcl
        rw [h1] at hrw hcl ⊢
        exact hpass rw hrw cr' (by simp [hcr']) hcl)
      rw [h1] at i1 i2
      exact ⟨i1, i2, i3⟩

/-- The cross-validation checks the schema's table rule declares. -/
def SchemaCks (s : Schema) : List CrossCheck :=
  match s.dataframe_rule with
  | some dr => cksOf dr
  | none => []

/-- Whether the schema's table rule requests full-row duplicate removal. -/
def SchemaNoDup (s : Schema) : Bool :=
  match s.dataframe_rule with
  | some dr => dr.no_duplicates
  | none => false

/-- The schema's unique-keys rule is absent, empty, or names only existing
columns. -/
def SchemaUkOK (s : Schema) (cols : List String) : Prop :=
  match s.dataframe_rule with
  | some dr => UkOK dr cols
  | none => True

/-- Step 1 of the pipeline under a fault-free table rule: columns
preserved, rows only removed, survivors pass every cross-check, duplicate
removal leaves distinct row values, and an already-clean table comes back
unchanged. -/
theorem crossPhase_char (df : DataFrame) (s : Schema)
    (hdt : DrTotal s.dataframe_rule) (huk : SchemaUkOK s df.cols) :
    (crossPhase df s).1.cols = df.cols ∧
    (crossPhase df s).1.rows.Sublist df.rows ∧
    (∀ rw ∈ (crossPhase df s).1.rows, ∀ ck ∈ SchemaCks s,
      CheckPasses df.cols ck rw.2) ∧
    (SchemaNoDup s = true → ((crossPhase df s).1.rows.map Prod.snd).Nodup) ∧
    ((SchemaNoDup s = true → (df.rows.map Prod.snd).Nodup) →
      (∀ rw ∈ df.rows, ∀ ck ∈ SchemaCks s, CheckPasses df.cols ck rw.2) →
      (crossPhase df s).1 = df) := by
  unfold crossPhase SchemaCks SchemaNoDup SchemaUkOK at *
  cases hdr : s.dataframe_rule with
  | none =>
    dsimp only
    refine ⟨rfl, List.Sublist.refl _, by simp, fun h => absurd h (by simp), fun _ _ => rfl⟩
  | some dr =>
    rw [hdr] at hdt huk
    dsimp only
    exact validate_dataframe_char df dr hdt huk

/-- `reset_index(drop=True)` is idempotent. -/
theorem resetIndex_idem (df : DataFrame) :
    resetIndex (resetIndex df) = resetIndex df := by
  unfold resetIndex
  simp [List.enum_map_snd]

/-- What one `clean_and_validate` run guarantees of its output under a
drop-only, fault-free schema: the caller's columns, an already-reset
index, every surviving row passing every declared column rule and every
cross-check, and pairwise-distinct row values when duplicate removal was
requested. -/
theorem clean_run_facts (df : DataFrame) (s : Schema)
    (hR : ∀ p ∈ s.rules, RuleDropOnly p.2)
    (hdt : DrTotal s.dataframe_rule) (huk : SchemaUkOK s df.cols) :
    (clean_and_validate df s).1.cols = df.cols ∧
    resetIndex (clean_and_validate df s).1 = (clean_and_validate df s).1 ∧
    (∀ rw ∈ (clean_and_validate df s).1.rows,
      AllPass s.rules df.cols rw.2 ∧
      ∀ ck ∈ SchemaCks s, CheckPasses df.cols ck rw.2) ∧
    (SchemaNoDup s = true → ((clean_and_validate df s).1.rows.map Prod.snd).Nodup) := by
  obtain ⟨pc, ps, pp, pn, _⟩ := crossPhase_char df s hdt huk
  obtain ⟨qa, qb, _⟩ := columnPhase_dropOnly s.rules ((crossPhase df s).1, [], []) hR
  have hq : s.rules.foldl columnStep ((crossPhase df s).1, [], []) =
      columnPhase (crossPhase df s).1 s := rfl
  rw [hq] at qa qb
  dsimp only at qa qb
  have hqc : (columnPhase (crossPhase df s).1 s).1.cols = df.cols := by
    have hcl := columnPhase_cols s.rules ((crossPhase df s).1, [], []) hR
    rw [hq] at hcl
    exact hcl.trans pc
  have hfilt := filter_eq_of_forall₂ (columnPhase (crossPhase df s).1 s).2.1 qa
  have hmain : ∀ Z : DataFrame, Z.cols = df.cols →
      Z.rows = (crossPhase df s).1.rows.filter
        (fun rw => rw.1 ∉ (columnPhase (crossPhase df s).1 s).2.1) →
      (resetIndex Z).cols = df.cols ∧
      resetIndex (resetIndex Z) = resetIndex Z ∧
      (∀ rw ∈ (resetIndex Z).rows,
        AllPass s.rules df.cols rw.2 ∧
        ∀ ck ∈ SchemaCks s, CheckPasses df.cols ck rw.2) ∧
      (SchemaNoDup s = true → ((resetIndex Z).rows.map Prod.snd).Nodup) := by
    intro Z hZc hZr
    refine ⟨hZc, resetIndex_idem Z, ?_, ?_⟩
    · intro rw hrw
      have hv : rw.2 ∈ Z.rows.map Prod.snd := by
        have h0 : rw ∈ (Z.rows.map Prod.snd).enum := hrw
        have h1 : rw.2 ∈ List.map Prod.snd (Z.rows.map Prod.snd).enum :=
          List.mem_map.mpr ⟨rw, h0, rfl⟩
        rwa [List.enum_map_snd] at h1
      rw [hZr] at hv
      obtain ⟨rw0, hrw0, hval⟩ := List.mem_map.mp hv
      have hfm := List.mem_filter.mp hrw0
      have hnotM : rw0.1 ∉ (columnPhase (crossPhase df s).1 s).2.1 := by
        simpa using hfm.2
      refine ⟨?_, ?_⟩
      · intro cr hcr hcl
        rw [← pc] at hcl
        rw [← hval, ← pc]
        exact qb rw0 hfm.1 hnotM cr hcr hcl
      · intro ck hck
        rw [← hval]
        exact pp rw0 hfm.1 ck hck
    · intro h
      have h1 : (resetIndex Z).rows.map Prod.snd = Z.rows.map Prod.snd := by
        have h0 : (resetIndex Z).rows = (Z.rows.map Prod.snd).enum := rfl
        rw [h0, List.enum_map_snd]
      rw [h1, hZr]
      exact (pn h).sublist ((List.filter_sublist _).map Prod.snd)
  unfold clean_and_validate
  dsimp only
  split
  · exact hmain (dropRows (columnPhase (crossPhase df s).1 s).1
      (columnPhase (crossPhase df s).1 s).2.1) hqc hfilt
  · rename_i hcnt
    have hM : (columnPhase (crossPhase df s).1 s).2.1 = [] :=
      List.length_eq_zero.mp (by omega)
    have hself : (columnPhase (crossPhase df s).1 s).1.rows.filter
        (fun rw => rw.1 ∉ (columnPhase (crossPhase df s).1 s).2.1) =
        (columnPhase (crossPhase df s).1 s).1.rows :=
      List.filter_eq_self.mpr (fun a _ => by rw [hM]; simp)
    exact hmain (columnPhase (crossPhase df s).1 s).1 hqc (hself.symm.trans hfilt)

/-- C7 as amended: on a schema whose column rules are all drop-only with no
dtype conversion and total one-argument custom validators, and whose table
rule never faults (total cross-validation expressions, unique keys naming
existing columns), `clean_and_validate` is idempotent: running it again on
its own output returns that table unchanged, removing no further rows. -/
theorem C7_drop_only_idempotent (df : DataFrame) (s : Schema)
    (hR : ∀ p ∈ s.rules, RuleDropOnly p.2)
    (hdt : DrTotal s.dataframe_rule)
    (huk : SchemaUkOK s df.cols) :
    (clean_and_validate (clean_and_validate df s).1 s).1 =
      (clean_and_validate df s).1 := by
  obtain ⟨gc, gi, gp, gn⟩ := clean_run_facts df s hR hdt huk
  set g1 := (clean_and_validate df s).1 with hg1
  have huk2 : SchemaUkOK s g1.cols := by rw [gc]; exact huk
  obtain ⟨_, _, _, _, pid⟩ := crossPhase_char g1 s hdt huk2
  have hcp : (crossPhase g1 s).1 = g1 := by
    refine pid gn ?_
    intro rw hrw ck hck
    have h := (gp rw hrw).2 ck hck
    rwa [← gc] at h
  obtain ⟨m1, m2, m3⟩ := columnPhase_mask_empty s.rules
    ((crossPhase g1 s).1, [], []) hR rfl (by
      dsimp only
      rw [hcp]
      intro rw hrw cr hcr hcl
      rw [gc] at hcl ⊢
      exact (gp rw hrw).1 cr hcr hcl)
  have hq2 : s.rules.foldl columnStep ((crossPhase g1 s).1, [], []) =
      columnPhase (crossPhase g1 s).1 s := rfl
  rw [hq2] at m1 m2 m3
  dsimp only at m1 m2
  rw [hcp] at m1 m2 m3
  unfold clean_and_validate
  dsimp only
  split
  · rename_i hne
    rw [hcp, m3] at hne
    simp at hne
  · rw [hcp]
    have hq1 : (columnPhase g1 s).1 = g1 := by
      calc (columnPhase g1 s).1 =
          ⟨(columnPhase g1 s).1.cols, (columnPhase g1 s).1.rows⟩ := rfl
        _ = ⟨g1.cols, g1.rows⟩ := by rw [m1, m2]
        _ = g1 := rfl
    rw [hq1]
    exact gi

/-- The witness table for the amended idempotence theorem. -/
def c7df : DataFrame := ⟨["age"], [(0, [.int 3]), (1, [.int 7])]⟩

/-- A drop-only witness schema: one minimum bound that drops violators. -/
def c7schema : Schema :=
  Schema.mk [("age", { min := some 5, drop_if_invalid := true })] none

theorem C7_drop_only_idempotent_witness :
    (clean_and_validate c7df c7schema).1 = ⟨["age"], [(0, [.int 7])]⟩ ∧
    (clean_and_validate (clean_and_validate c7df c7schema).1 c7schema).1 =
      (clean_and_validate c7df c7schema).1 :=
  ⟨by decide,
    C7_drop_only_idempotent c7df c7schema
      (by
        intro p hp
        simp only [c7schema, List.mem_singleton] at hp
        subst hp
        exact ⟨rfl, rfl, rfl, trivial⟩)
      trivial trivial⟩

end Cleanframe
